import Mathlib

/-!
# Framing layer of `packet.Conn` (src/packet/conn.go)

A shallow embedding of the packet reader and writer of `conn.go`:
`ReadPacket`, `ReadPacketTo`, `WritePacket`, `ResetSequence`, `Close`,
`ConnError` and `IsConnError`, together with the library operations they call
(`io.ReadFull`, `io.CopyN`, `net.Conn.Write`, `errors.Trace`, `errors.Errorf`,
`errors.Cause`).

Conventions of the embedding

* a byte (`byte`, `uint8`) is a `Fin 256`; every wrap-around is written with
  an explicit `% 256`;
* `int` values are `Int` (the writer's `length` can be negative), lengths
  decoded from a header are `Nat`;
* the read side of the connection (`c.br`) is the finite list of bytes the
  peer still delivers, followed by the error every later read reports;
* the write side of the connection logs, call by call, the bytes each `Write`
  accepted, and answers from a script of outcomes; once the script is used up
  every write is accepted in full;
* a Go slice `data` is the list of its elements; re-slicing `data[n:]` moves
  the first `n` elements to the list `done` of elements of the caller's buffer
  that lie before the slice, so the caller's buffer is `done ++ data`;
* a run-time panic is the `Except.error` outcome of an operation.
-/

namespace packet

/-- A byte of the wire or of a buffer (`byte`, `uint8`). -/
abbrev Byte := Fin 256

/-- Modelled from the spec: the constant `MaxPayloadLen` of the imported package
`mysql`, which is not among the sources; the spec gives `0xFFFFFF`. -/
def MaxPayloadLen : Nat := 0xFFFFFF

/-- Error values of the standard library that the streams report. -/
inductive IOError where
  | EOF
  | ErrUnexpectedEOF
  | ErrShortWrite
  | other (code : Nat)
deriving DecidableEq, Repr

/-- Error values of the package: library errors, the `*errors.Err` of juju/errors
(fields `message`, `cause`, `previous`) and `ConnError` (fields `Cause`,
`Message`; conn.go:185-188). -/
inductive Error where
  | io (e : IOError)
  | Err (message : String) (cause : Option Error) (previous : Option Error)
  | ConnError (Cause : Option Error) (Message : String)

/-- The function `errors.Cause`: the `cause` field of an `*errors.Err` when it is not nil,
the error itself otherwise (`ConnError` has a field `Cause`, no method `Cause()`). -/
def Cause : Error → Error
  | .Err _ (some d) _ => d
  | e => e

/-- The function `errors.Errorf`: a fresh `*errors.Err` with a message and no cause. -/
def Errorf (message : String) : Error := .Err message none none

/-- The function `errors.Trace`: nil for nil, otherwise an `*errors.Err` whose `previous` is
the argument and whose `cause` is the argument's cause. -/
def Trace : Option Error → Option Error
  | none => none
  | some other => some (.Err "" (some (Cause other)) (some other))

/-- IsConnError (conn.go:199-207): false for nil, otherwise whether the cause of the error
has type `ConnError`. -/
def IsConnError : Option Error → Bool
  | none => false
  | some err =>
    match Cause err with
    | .ConnError _ _ => true
    | _ => false

/-- The read side `c.br`: the bytes still to be delivered and the error reported once they
are used up (`EOF` for a closed stream).  How many bytes a single read hands over is fixed by
the connection and by the buffer of `bufio`, not by the code; it shows only when a copy stops
at a write that the sink refuses, because the bytes of the read before that write are gone
from the stream.  `readAhead` is the number of these bytes beyond the first refused one (4088
in a run where 4092 bytes are buffered and the sink takes 3 of them). -/
structure Reader where
  pending : List Byte
  ending : IOError
  readAhead : Nat
deriving DecidableEq, Repr

/-- The function `io.ReadFull(r, buf)`: fills `buf` with the next `len(buf)` bytes; when the stream
ends before that, keeps what was read and reports `EOF` if nothing was read,
`ErrUnexpectedEOF` if the stream closed in the middle, or the stream's own error. -/
def ReadFull (r : Reader) (buf : List Byte) : List Byte × Nat × Option IOError × Reader :=
  if buf.length ≤ r.pending.length then
    (r.pending.take buf.length, buf.length, none, { r with pending := r.pending.drop buf.length })
  else
    (r.pending ++ buf.drop r.pending.length, r.pending.length,
      some (if r.ending = .EOF ∧ 0 < r.pending.length then .ErrUnexpectedEOF else r.ending),
      { r with pending := [] })

/-- An `io.Writer` used as sink: what it has accepted so far and how many more bytes it
accepts (`none`: it accepts every write, as a `bytes.Buffer` does). -/
structure Sink where
  data : List Byte
  room : Option Nat
deriving DecidableEq, Repr

/-- One call of `Write` on a sink: all of `p` is accepted when there is room, otherwise the
bytes that fit are accepted and the write is short. -/
def Sink.Write (w : Sink) (p : List Byte) : Nat × Option IOError × Sink :=
  match w.room with
  | none => (p.length, none, { w with data := w.data ++ p })
  | some k =>
    if p.length ≤ k then (p.length, none, { data := w.data ++ p, room := some (k - p.length) })
    else (k, some .ErrShortWrite, { data := w.data ++ p.take k, room := some 0 })

/-- The function `io.CopyN(dst, src, n)`: moves the next `n` bytes of `src` to `dst`; `written = n`
comes with a nil error.  While the sink accepts what it is given this is one read of what the
stream still delivers of the `n` bytes and one write, and a stream that stopped early gives
its ending as the error.  When the sink refuses a write the copy stops there with the sink's
error: the sink has taken `written` bytes, the stream has lost the bytes of the read that
came before the refused write, which are the first refused byte and `src.readAhead` more as
far as the `n` bytes reach, and what follows them is left unread. -/
def CopyN (dst : Sink) (src : Reader) (n : Nat) : Nat × Option IOError × Sink × Reader :=
  let chunk := src.pending.take n
  match dst.Write chunk with
  | (nw, werr, dst1) =>
    if nw = n then (n, none, dst1, { src with pending := src.pending.drop n })
    else
      match werr with
      | some e =>
        (nw, some e, dst1,
          { src with pending := src.pending.drop (min chunk.length (nw + 1 + src.readAhead)) })
      | none => (nw, some src.ending, dst1, { src with pending := src.pending.drop n })

/-- What one call of `Write` on the connection reports: the count `n` and the error. -/
structure WriteOutcome where
  n : Nat
  err : Option IOError
deriving DecidableEq, Repr

/-- The embedded `net.Conn`, write side and `Close`: `sent` logs for every call of `Write` the
bytes the stream took, `script` holds the outcomes of the coming calls (an exhausted script
accepts every write in full), `closes` counts the calls of `Close` and `closeErr` is what
`Close` returns. -/
structure NetConn where
  sent : List (List Byte)
  script : List WriteOutcome
  closes : Nat
  closeErr : Option IOError
deriving DecidableEq, Repr

/-- One call of `net.Conn.Write`. -/
def NetConn.Write (s : NetConn) (p : List Byte) : Nat × Option IOError × NetConn :=
  match s.script with
  | [] => (p.length, none, { s with sent := s.sent ++ [p] })
  | o :: rest => (o.n, o.err, { s with sent := s.sent ++ [p.take o.n], script := rest })

/-- One call of `net.Conn.Close`. -/
def NetConn.Close (s : NetConn) : Option IOError × NetConn :=
  (s.closeErr, { s with closes := s.closes + 1 })

/-- The struct `Conn` (conn.go:17-22): the embedded `net.Conn` as the field `netConn` (nil
when absent), the buffered reader `br` and the counter `Sequence`. -/
structure Conn where
  netConn : Option NetConn
  br : Reader
  Sequence : Byte
deriving DecidableEq, Repr

/-- The statement `c.Sequence++` on a `uint8`. -/
def incr (s : Byte) : Byte := Fin.ofNat ((s.val + 1) % 256)

/-- The header decoding of conn.go:89,
`int(uint32(header[0]) | uint32(header[1])<<8 | uint32(header[2])<<16)`. -/
def headerLength (header : List Byte) : Nat :=
  (header.getD 0 0).val ||| (header.getD 1 0).val <<< 8 ||| (header.getD 2 0).val <<< 16

/-- ReadPacketTo (conn.go:79-123).  Returns the error (nil: `none`), the connection and the
sink after the call. -/
def ReadPacketTo (c : Conn) (w : Sink) : Option Error × Conn × Sink :=
  match _hrd : ReadFull c.br [0, 0, 0, 0] with
  | (_, _, some err, br1) =>
    (some (.ConnError (Trace (some (.io err))) "Failed to read packet header"),
      { c with br := br1 }, w)
  | (header, _, none, br1) =>
    let length := headerLength header
    if length < 1 then
      (some (Errorf ("invalid payload length " ++ toString length)), { c with br := br1 }, w)
    else
      let sequence := header.getD 3 0
      if sequence ≠ c.Sequence then
        (some (Errorf ("invalid sequence " ++ toString sequence.val ++ " != "
            ++ toString c.Sequence.val)), { c with br := br1 }, w)
      else
        let c1 : Conn := { c with br := br1, Sequence := incr c.Sequence }
        match _hcp : CopyN w c1.br length with
        | (_, some err, w1, br2) =>
          (some (.ConnError (Trace (some (.io err))) "Failed to read packet body"),
            { c1 with br := br2 }, w1)
        | (n, none, w1, br2) =>
          if n ≠ length then
            (some (.ConnError (Trace none)
                ("Packet body length mismatch. Expected " ++ toString length ++ ", got "
                  ++ toString n)),
              { c1 with br := br2 }, w1)
          else if length < MaxPayloadLen then
            (none, { c1 with br := br2 }, w1)
          else
            match ReadPacketTo { c1 with br := br2 } w1 with
            | (some err, c2, w2) => (Trace (some err), c2, w2)
            | (none, c2, w2) => (none, c2, w2)
termination_by c.br.pending.length
decreasing_by
  have h1 : br1.pending.length < c.br.pending.length := by
    simp only [ReadFull] at _hrd
    split at _hrd
    · next hle =>
      simp only [Prod.mk.injEq] at _hrd
      rw [← _hrd.2.2.2]
      simp only [List.length_drop, List.length_cons, List.length_nil] at hle ⊢
      omega
    · simp at _hrd
  have h2 : br2.pending.length ≤ br1.pending.length := by
    simp only [CopyN] at _hcp
    split at _hcp
    · simp only [Prod.mk.injEq] at _hcp
      rw [← _hcp.2.2.2]
      simp only [List.length_drop]
      omega
    · split at _hcp <;> simp only [Prod.mk.injEq] at _hcp <;> rw [← _hcp.2.2.2] <;>
        simp only [List.length_drop] <;> omega
  omega

/-- ReadPacket (conn.go:33-40): reads one packet into a fresh `bytes.Buffer`; returns the
byte slice (`none`: nil), the error and the connection after the call. -/
def ReadPacket (c : Conn) : Option (List Byte) × Option Error × Conn :=
  let buf : Sink := { data := [], room := none }
  match ReadPacketTo c buf with
  | (some err, c1, _) => (none, Trace (some err), c1)
  | (none, c1, buf1) => (some buf1.data, none, c1)

/-- Run-time panics of the writer. -/
inductive Fault where
  | indexOutOfRange
  | sliceOutOfRange
  | nilDereference
deriving DecidableEq, Repr

/-- The conversion `byte(x)` of an `int`: its low 8 bits. -/
def byte (x : Int) : Byte := Fin.ofNat (x % 256).toNat

/-- The four assignments `data[0] = v0`, `data[1] = v1`, `data[2] = v2`, `data[3] = v3` in
this order; the first index out of range panics and the assignments made before it stay. -/
def stampHeader (data : List Byte) (v0 v1 v2 v3 : Byte) : Option Fault × List Byte :=
  if data.length < 1 then (some .indexOutOfRange, data)
  else if data.length < 2 then (some .indexOutOfRange, data.set 0 v0)
  else if data.length < 3 then (some .indexOutOfRange, (data.set 0 v0).set 1 v1)
  else if data.length < 4 then (some .indexOutOfRange, ((data.set 0 v0).set 1 v1).set 2 v2)
  else (none, (((data.set 0 v0).set 1 v1).set 2 v2).set 3 v3)

/-- The call `c.Write(p)` through the embedded `net.Conn`; a nil `net.Conn` panics. -/
def Conn.Write (c : Conn) (p : List Byte) : Except Fault (Nat × Option IOError × Conn) :=
  match c.netConn with
  | none => .error .nilDereference
  | some nc =>
    match nc.Write p with
    | (n, err, nc1) => .ok (n, err, { c with netConn := some nc1 })

/-- What a call of `WritePacket` leaves: the returned error (or the panic), the connection
and the caller's buffer. -/
structure WriteResult where
  result : Except Fault (Option Error)
  conn : Conn
  buffer : List Byte

/-- The body of WritePacket from the loop on (conn.go:130-169), with the variables `data` and
`length` as arguments and `done` the part of the caller's buffer before `data`. -/
def WritePacket.loop (c : Conn) (done data : List Byte) (length : Int) : WriteResult :=
  if length ≥ (MaxPayloadLen : Int) then
    match stampHeader data 0xff 0xff 0xff c.Sequence with
    | (some f, data1) => ⟨.error f, c, done ++ data1⟩
    | (none, data1) =>
      let bodyOffset := 4 + MaxPayloadLen
      if data1.length < bodyOffset then ⟨.error .sliceOutOfRange, c, done ++ data1⟩
      else
        match c.Write (data1.take bodyOffset) with
        | .error f => ⟨.error f, c, done ++ data1⟩
        | .ok (_, some err, c1) =>
          ⟨.ok (some (.ConnError (Trace (some (.io err))) "Failed to write packet header")),
            c1, done ++ data1⟩
        | .ok (n, none, c1) =>
          if n ≠ bodyOffset then
            ⟨.ok (Trace (some (.ConnError none
                ("Packet header not fully written. Size: " ++ toString bodyOffset
                  ++ ", written " ++ toString n)))),
              c1, done ++ data1⟩
          else
            WritePacket.loop { c1 with Sequence := incr c1.Sequence }
              (done ++ data1.take MaxPayloadLen) (data1.drop MaxPayloadLen)
              (length - MaxPayloadLen)
  else
    match stampHeader data (byte length) (byte (length >>> (8 : Nat)))
        (byte (length >>> (16 : Nat))) c.Sequence with
    | (some f, data1) => ⟨.error f, c, done ++ data1⟩
    | (none, data1) =>
      match c.Write data1 with
      | .error f => ⟨.error f, c, done ++ data1⟩
      | .ok (_, some err, c1) =>
        ⟨.ok (some (.ConnError (Trace (some (.io err))) "Failed to write packet body")),
          c1, done ++ data1⟩
      | .ok (n, none, c1) =>
        if n ≠ data1.length then
          ⟨.ok (Trace (some (.ConnError none
              ("Packet body not fully written. Size: " ++ toString data1.length
                ++ ", written " ++ toString n)))),
            c1, done ++ data1⟩
        else
          ⟨.ok none, { c1 with Sequence := incr c1.Sequence }, done ++ data1⟩
termination_by length.toNat
decreasing_by
  have hpos : (0 : Int) < (MaxPayloadLen : Int) := by decide
  omega

/-- WritePacket (conn.go:127-170): `length := len(data) - 4`, then the loop. -/
def WritePacket (c : Conn) (data : List Byte) : WriteResult :=
  WritePacket.loop c [] data ((data.length : Int) - 4)

/-- ResetSequence (conn.go:172-174). -/
def ResetSequence (c : Conn) : Conn := { c with Sequence := 0 }

/-- Close (conn.go:176-182): resets the counter, then closes the `net.Conn` when there is
one. -/
def Close (c : Conn) : Option Error × Conn :=
  let c1 : Conn := { c with Sequence := 0 }
  match c1.netConn with
  | some nc =>
    match nc.Close with
    | (e, nc1) => (e.map Error.io, { c1 with netConn := some nc1 })
  | none => (none, c1)

/-! ## Definitions that follow the words of the spec, and connections to run the code on -/

/-- The sequence byte `(s + i) mod 256`. -/
def seqAdd (s : Byte) (i : Nat) : Byte := Fin.ofNat ((s.val + i) % 256)

/-- A frame as it lies on the wire: the three length bytes, the sequence byte, the payload. -/
def frame (b0 b1 b2 q : Byte) (payload : List Byte) : List Byte :=
  b0 :: b1 :: b2 :: q :: payload

/-- The wire bytes of consecutive frames with length field `0xFFFFFF` that carry the payloads
`ps`, the frame of index `j` in the list having sequence byte `(s + i + j) mod 256`. -/
def maxFrames (s : Byte) (i : Nat) : List (List Byte) → List Byte
  | [] => []
  | p :: ps => frame 0xFF 0xFF 0xFF (seqAdd s i) p ++ maxFrames s (i + 1) ps

/-- The frame of index `i` that the spec gives for a payload `P` sent from sequence `s`, when
`i` is below `len(P) / MaxPayloadLen`: the header `0xFF 0xFF 0xFF`, `(s+i) mod 256` and the
payload bytes `P[i*MaxPayloadLen : (i+1)*MaxPayloadLen]`. -/
def fullFrame (P : List Byte) (s : Byte) (i : Nat) : List Byte :=
  [0xFF, 0xFF, 0xFF, seqAdd s i] ++ (P.drop (i * MaxPayloadLen)).take MaxPayloadLen

/-- The final frame that the spec gives for a payload `P` with `k = len(P) / MaxPayloadLen`:
the three little-endian bytes of `r = len(P) - k*MaxPayloadLen`, the sequence byte
`(s+k) mod 256` and the payload bytes `P[k*MaxPayloadLen:]`. -/
def finalFrame (P : List Byte) (s : Byte) (k : Nat) : List Byte :=
  let r := P.length - k * MaxPayloadLen
  [Fin.ofNat (r % 256), Fin.ofNat ((r >>> 8) % 256), Fin.ofNat ((r >>> 16) % 256), seqAdd s k]
    ++ P.drop (k * MaxPayloadLen)

/-- The frames that the spec gives for a payload `P` sent from sequence `s`: `k` frames of
full length, then the final frame, with `k = len(P) / MaxPayloadLen`. -/
def wireFrames (P : List Byte) (s : Byte) : List (List Byte) :=
  let k := P.length / MaxPayloadLen
  (List.range k).map (fullFrame P s) ++ [finalFrame P s k]

/-- Whether the next call of `Write` on the connection takes all of `p` and reports no error:
the script is used up, or its next outcome is `(len(p), nil)`. -/
def NetConn.accepts (nc : NetConn) (p : List Byte) : Bool :=
  match nc.script with
  | [] => true
  | o :: _ => o.err.isNone && o.n == p.length

/-- Whether a call returned a non-nil error that IsConnError classifies as true. -/
def isConnFailure : Except Fault (Option Error) → Bool
  | .ok (some e) => IsConnError (some e)
  | _ => false

/-- The connection `c`, whose `net.Conn` was `nc`, after `calls` further calls of `Write` that
put `sent` on the stream, with `frames` increments of the counter. -/
def afterWrites (c : Conn) (nc : NetConn) (sent : List (List Byte)) (calls frames : Nat) :
    Conn :=
  { c with
    netConn := some { nc with sent := nc.sent ++ sent, script := nc.script.drop calls },
    Sequence := seqAdd c.Sequence frames }

/-- The outcome "returned nil": every frame of `fs` was written by a call of its own and the
counter advanced once per frame. -/
def WroteAll (r : WriteResult) (c : Conn) (nc : NetConn) (fs : List (List Byte)) : Prop :=
  r.result = .ok none ∧ r.conn = afterWrites c nc fs fs.length fs.length

/-- The outcome "failed at the write of index `j`": the `j` frames before it were written in
full, the call of index `j` got the outcome `o`, which is not `(len, nil)`, and took the first
`o.n` bytes of its frame; no call follows, the counter advanced `j` times and the returned
error is one that IsConnError classifies as true. -/
def FailedAt (r : WriteResult) (c : Conn) (nc : NetConn) (fs : List (List Byte)) (j : Nat)
    (o : WriteOutcome) : Prop :=
  j < fs.length ∧ nc.script.get? j = some o
    ∧ ¬ (o.err = none ∧ o.n = (fs.getD j []).length)
    ∧ isConnFailure r.result = true
    ∧ r.conn = afterWrites c nc (fs.take j ++ [(fs.getD j []).take o.n]) (j + 1) j

/-- The bytes that the calls of `Write` on the connection have put on the stream, in order. -/
def wire (c : Conn) : List Byte :=
  match c.netConn with
  | some nc => nc.sent.flatten
  | none => []

/-- A connection used for reading: no `net.Conn`, a stream that delivers `bytes` and is then
closed by the peer, and the counter at `s`. -/
def readerOf (bytes : List Byte) (s : Byte) : Conn :=
  { netConn := none, br := { pending := bytes, ending := .EOF, readAhead := 0 },
    Sequence := s }

/-- A connection used for writing: a `net.Conn` that has sent nothing yet and answers from
`script`, an empty read side, and the counter at `s`. -/
def writerOf (script : List WriteOutcome) (s : Byte) : Conn :=
  { netConn := some { sent := [], script := script, closes := 0, closeErr := none },
    br := { pending := [], ending := .EOF, readAhead := 0 }, Sequence := s }

/-- A sink that has accepted `bytes` and accepts every write. -/
def bufferOf (bytes : List Byte) : Sink := { data := bytes, room := none }

/-- The error `e` after `n` calls of `errors.Trace`. -/
def traceN : Nat → Error → Error
  | 0, e => e
  | n + 1, e => .Err "" (some (Cause (traceN n e))) (some (traceN n e))

/-- The error values that the code builds where a read or a write failed or was short: at the
header read (conn.go:83), at the body copy (conn.go:103, 108), at the write of a full chunk
(conn.go:139, 145) and at the final write (conn.go:159, 165). -/
inductive TransportError : Error → Prop where
  | headerRead (e : IOError) :
      TransportError (.ConnError (Trace (some (.io e))) "Failed to read packet header")
  | bodyRead (e : IOError) :
      TransportError (.ConnError (Trace (some (.io e))) "Failed to read packet body")
  | bodyLength (msg : String) : TransportError (.ConnError (Trace none) msg)
  | chunkWrite (e : IOError) :
      TransportError (.ConnError (Trace (some (.io e))) "Failed to write packet header")
  | finalWrite (e : IOError) :
      TransportError (.ConnError (Trace (some (.io e))) "Failed to write packet body")
  | shortWrite (msg : String) : TransportError (.ConnError none msg)

/-- The error values that the code builds where a header is invalid: a length below 1
(conn.go:91) and a sequence byte that differs from the counter (conn.go:97). -/
inductive ProtocolError : Error → Prop where
  | invalidLength (length : Nat) :
      ProtocolError (Errorf ("invalid payload length " ++ toString length))
  | sequenceMismatch (sequence expected : Byte) :
      ProtocolError (Errorf ("invalid sequence " ++ toString sequence.val ++ " != "
        ++ toString expected.val))

/-- The classification of a returned error `e`: it is an error built at a
failed read or write, or one built at an invalid header, traced some number of times, and
IsConnError is true in the first case and false in the second. -/
def Classified (e : Error) : Prop :=
  ∃ n b, e = traceN n b
    ∧ ((TransportError b ∧ IsConnError (some e) = true)
        ∨ (ProtocolError b ∧ IsConnError (some e) = false))

/-- ReadPacketTo (conn.go:79-123) run with a bound on the number of calls of ReadPacketTo,
the first one included: `none` when `calls` calls do not reach the return. -/
def ReadPacketTo.within : Nat → Conn → Sink → Option (Option Error × Conn × Sink)
  | 0, _, _ => none
  | calls + 1, c, w =>
    match ReadFull c.br [0, 0, 0, 0] with
    | (_, _, some err, br1) =>
      some (some (.ConnError (Trace (some (.io err))) "Failed to read packet header"),
        { c with br := br1 }, w)
    | (header, _, none, br1) =>
      let length := headerLength header
      if length < 1 then
        some (some (Errorf ("invalid payload length " ++ toString length)),
          { c with br := br1 }, w)
      else
        let sequence := header.getD 3 0
        if sequence ≠ c.Sequence then
          some (some (Errorf ("invalid sequence " ++ toString sequence.val ++ " != "
              ++ toString c.Sequence.val)), { c with br := br1 }, w)
        else
          let c1 : Conn := { c with br := br1, Sequence := incr c.Sequence }
          match CopyN w c1.br length with
          | (_, some err, w1, br2) =>
            some (some (.ConnError (Trace (some (.io err))) "Failed to read packet body"),
              { c1 with br := br2 }, w1)
          | (n, none, w1, br2) =>
            if n ≠ length then
              some (some (.ConnError (Trace none)
                  ("Packet body length mismatch. Expected " ++ toString length ++ ", got "
                    ++ toString n)),
                { c1 with br := br2 }, w1)
            else if length < MaxPayloadLen then
              some (none, { c1 with br := br2 }, w1)
            else
              match ReadPacketTo.within calls { c1 with br := br2 } w1 with
              | none => none
              | some (some err, c2, w2) => some (Trace (some err), c2, w2)
              | some (none, c2, w2) => some (none, c2, w2)

/-- The body of WritePacket from the loop on (conn.go:130-169) run with a bound on the number
of turns of the loop: `none` when the loop condition holds after `turns` turns. -/
def WritePacket.loopWithin (turns : Nat) (c : Conn) (done data : List Byte) (length : Int) :
    Option WriteResult :=
  if length ≥ (MaxPayloadLen : Int) then
    match turns with
    | 0 => none
    | turns + 1 =>
      match stampHeader data 0xff 0xff 0xff c.Sequence with
      | (some f, data1) => some ⟨.error f, c, done ++ data1⟩
      | (none, data1) =>
        let bodyOffset := 4 + MaxPayloadLen
        if data1.length < bodyOffset then some ⟨.error .sliceOutOfRange, c, done ++ data1⟩
        else
          match c.Write (data1.take bodyOffset) with
          | .error f => some ⟨.error f, c, done ++ data1⟩
          | .ok (_, some err, c1) =>
            some ⟨.ok (some (.ConnError (Trace (some (.io err)))
              "Failed to write packet header")), c1, done ++ data1⟩
          | .ok (n, none, c1) =>
            if n ≠ bodyOffset then
              some ⟨.ok (Trace (some (.ConnError none
                  ("Packet header not fully written. Size: " ++ toString bodyOffset
                    ++ ", written " ++ toString n)))),
                c1, done ++ data1⟩
            else
              WritePacket.loopWithin turns { c1 with Sequence := incr c1.Sequence }
                (done ++ data1.take MaxPayloadLen) (data1.drop MaxPayloadLen)
                (length - MaxPayloadLen)
  else
    match stampHeader data (byte length) (byte (length >>> (8 : Nat)))
        (byte (length >>> (16 : Nat))) c.Sequence with
    | (some f, data1) => some ⟨.error f, c, done ++ data1⟩
    | (none, data1) =>
      match c.Write data1 with
      | .error f => some ⟨.error f, c, done ++ data1⟩
      | .ok (_, some err, c1) =>
        some ⟨.ok (some (.ConnError (Trace (some (.io err))) "Failed to write packet body")),
          c1, done ++ data1⟩
      | .ok (n, none, c1) =>
        if n ≠ data1.length then
          some ⟨.ok (Trace (some (.ConnError none
              ("Packet body not fully written. Size: " ++ toString data1.length
                ++ ", written " ++ toString n)))),
            c1, done ++ data1⟩
        else
          some ⟨.ok none, { c1 with Sequence := incr c1.Sequence }, done ++ data1⟩

/-- What ends a call of ReadPacketTo: the packet is complete, or one of the two reads or of
the two header checks fails. -/
inductive ReadStop where
  | complete
  | headerRead
  | invalidLength
  | sequenceMismatch
  | bodyRead
deriving DecidableEq, Repr

/-- Whether a sink that accepts `room` more bytes (`none`: any number) takes `n` bytes. -/
def roomFor (room : Option Nat) (n : Nat) : Bool :=
  match room with
  | none => true
  | some k => decide (n ≤ k)

/-- Following the words of the spec (4.1, steps 1 to 7), told from the bytes of the stream,
the expected sequence `s` and the room of the sink alone: what ends the read.  Fewer than 4
bytes: the header read fails.  Otherwise the header announces the little-endian length `n`
and the sequence byte `q`: `n < 1` is an invalid length, `q ≠ s` a sequence mismatch; when
fewer than `n` bytes follow or the sink does not take `n` bytes the body read fails; a frame
with `n < MaxPayloadLen` completes the packet, and after a longer one the same holds of the
rest of the stream with sequence `(s+1) mod 256`. -/
def readStop (pending : List Byte) (s : Byte) (room : Option Nat) : ReadStop :=
  match pending with
  | b0 :: b1 :: b2 :: q :: rest =>
    let n := b0.val + 256 * b1.val + 65536 * b2.val
    if n < 1 then .invalidLength
    else if q ≠ s then .sequenceMismatch
    else if rest.length < n ∨ roomFor room n = false then .bodyRead
    else if n < MaxPayloadLen then .complete
    else readStop (rest.drop n) (seqAdd s 1) (room.map (fun k => k - n))
  | _ => .headerRead
termination_by pending.length
decreasing_by
  simp only [List.length_drop, List.length_cons]
  omega

/-- Whether the returned error `e` is what the stop `k` calls for: nil for a complete packet,
an error that IsConnError classifies as true for a failed read, and an error that it
classifies as false for an invalid header. -/
def agrees (k : ReadStop) (e : Option Error) : Bool :=
  match k with
  | .complete => e.isNone
  | .headerRead => IsConnError e
  | .bodyRead => IsConnError e
  | .invalidLength => e.isSome && !IsConnError e
  | .sequenceMismatch => e.isSome && !IsConnError e

/-- Following the words of the claim about the writer: the index of the first frame whose
write does not get the outcome `(len, nil)`, if there is one; writes beyond the script are
accepted. -/
def firstRefused : List (List Byte) → List WriteOutcome → Option Nat
  | [], _ => none
  | _ :: _, [] => none
  | f :: fs, o :: os =>
    if o.err = none ∧ o.n = f.length then (firstRefused fs os).map (fun j => j + 1)
    else some 0

/-! ## Arithmetic of bytes and headers -/

theorem lor_shiftLeft_eq_add (x y i : Nat) (h : x < 2 ^ i) : x ||| y <<< i = x + 2 ^ i * y := by
  rw [Nat.shiftLeft_eq, Nat.lor_comm, Nat.mul_comm, ← Nat.mul_add_lt_is_or h, Nat.add_comm]

theorem headerLength_eq (b0 b1 b2 b3 : Byte) (rest : List Byte) :
    headerLength (b0 :: b1 :: b2 :: b3 :: rest) = b0.val + 256 * b1.val + 65536 * b2.val := by
  have h0 := b0.isLt
  have h1 := b1.isLt
  simp only [headerLength, List.getD_cons_zero, List.getD_cons_succ]
  rw [lor_shiftLeft_eq_add _ _ 8 (by omega), lor_shiftLeft_eq_add _ _ 16 (by omega)]
  omega

theorem headerLength_max (q : Byte) (rest : List Byte) :
    headerLength (0xFF :: 0xFF :: 0xFF :: q :: rest) = MaxPayloadLen := by
  rw [headerLength_eq]
  decide

theorem headerLength_zero (q : Byte) (rest : List Byte) :
    headerLength (0 :: 0 :: 0 :: q :: rest) = 0 := by
  rw [headerLength_eq]
  decide

theorem MaxPayloadLen_pos : 0 < MaxPayloadLen := by decide

theorem seqAdd_val (s : Byte) (i : Nat) : (seqAdd s i).val = (s.val + i) % 256 := by
  simp [seqAdd, Fin.ofNat]

theorem seqAdd_zero (s : Byte) : seqAdd s 0 = s := by
  apply Fin.ext
  rw [seqAdd_val]
  have := s.isLt
  omega

theorem incr_eq_seqAdd (s : Byte) : incr s = seqAdd s 1 := rfl

theorem incr_seqAdd (s : Byte) (i : Nat) : incr (seqAdd s i) = seqAdd s (i + 1) := by
  apply Fin.ext
  rw [incr_eq_seqAdd, seqAdd_val, seqAdd_val, seqAdd_val]
  omega

theorem seqAdd_incr (s : Byte) (i : Nat) : seqAdd (incr s) i = seqAdd s (i + 1) := by
  apply Fin.ext
  rw [incr_eq_seqAdd, seqAdd_val, seqAdd_val, seqAdd_val]
  omega

/-! ## Errors -/

theorem IsConnError_ConnError (cause : Option Error) (msg : String) :
    IsConnError (some (.ConnError cause msg)) = true := rfl

theorem IsConnError_Errorf (msg : String) : IsConnError (some (Errorf msg)) = false := rfl

theorem IsConnError_Trace (e : Error) :
    IsConnError (Trace (some e)) = IsConnError (some e) := rfl

/-! ## The reader, one frame at a time -/

theorem ReadPacketTo_unfold (c : Conn) (w : Sink) :
    ReadPacketTo c w =
      match ReadFull c.br [0, 0, 0, 0] with
      | (_, _, some err, br1) =>
        (some (.ConnError (Trace (some (.io err))) "Failed to read packet header"),
          { c with br := br1 }, w)
      | (header, _, none, br1) =>
        let length := headerLength header
        if length < 1 then
          (some (Errorf ("invalid payload length " ++ toString length)), { c with br := br1 }, w)
        else
          let sequence := header.getD 3 0
          if sequence ≠ c.Sequence then
            (some (Errorf ("invalid sequence " ++ toString sequence.val ++ " != "
                ++ toString c.Sequence.val)), { c with br := br1 }, w)
          else
            let c1 : Conn := { c with br := br1, Sequence := incr c.Sequence }
            match CopyN w c1.br length with
            | (_, some err, w1, br2) =>
              (some (.ConnError (Trace (some (.io err))) "Failed to read packet body"),
                { c1 with br := br2 }, w1)
            | (n, none, w1, br2) =>
              if n ≠ length then
                (some (.ConnError (Trace none)
                    ("Packet body length mismatch. Expected " ++ toString length ++ ", got "
                      ++ toString n)),
                  { c1 with br := br2 }, w1)
              else if length < MaxPayloadLen then
                (none, { c1 with br := br2 }, w1)
              else
                match ReadPacketTo { c1 with br := br2 } w1 with
                | (some err, c2, w2) => (Trace (some err), c2, w2)
                | (none, c2, w2) => (none, c2, w2) := by
  rw [ReadPacketTo]
  split
  · next heq => rw [heq]
  · next heq =>
    rw [heq]
    simp only
    split
    · rfl
    · split
      · rfl
      · split
        · next heq2 => rw [heq2]
        · next heq2 => rw [heq2]

theorem ReadFull_header (r : Reader) (b0 b1 b2 b3 : Byte) (rest : List Byte)
    (h : r.pending = b0 :: b1 :: b2 :: b3 :: rest) :
    ReadFull r [0, 0, 0, 0] = ([b0, b1, b2, b3], 4, none, { r with pending := rest }) := by
  simp [ReadFull, h]

theorem ReadFull_short (r : Reader) (h : r.pending.length < 4) :
    ReadFull r [0, 0, 0, 0] =
      (r.pending ++ List.drop r.pending.length [0, 0, 0, 0], r.pending.length,
        some (if r.ending = .EOF ∧ 0 < r.pending.length then .ErrUnexpectedEOF else r.ending),
        { r with pending := [] }) := by
  have h4 : ¬ (4 ≤ r.pending.length) := by omega
  simp [ReadFull, h4]

theorem CopyN_full (dst : Sink) (src : Reader) (payload rest : List Byte)
    (hroom : dst.room = none) (h : src.pending = payload ++ rest) :
    CopyN dst src payload.length =
      (payload.length, none, { dst with data := dst.data ++ payload },
        { src with pending := rest }) := by
  simp [CopyN, Sink.Write, hroom, h]

/-- A header that does not reach the reader in full. -/
theorem ReadPacketTo_short (c : Conn) (w : Sink) (h : c.br.pending.length < 4) :
    ReadPacketTo c w =
      (some (.ConnError (Trace (some (.io
          (if c.br.ending = .EOF ∧ 0 < c.br.pending.length then .ErrUnexpectedEOF
            else c.br.ending)))) "Failed to read packet header"),
        { c with br := { c.br with pending := [] } }, w) := by
  rw [ReadPacketTo_unfold, ReadFull_short c.br h]

/-- A header whose length field is 0. -/
theorem ReadPacketTo_zero (c : Conn) (w : Sink) (b0 b1 b2 q : Byte) (rest : List Byte)
    (h : c.br.pending = b0 :: b1 :: b2 :: q :: rest)
    (hz : headerLength [b0, b1, b2, q] = 0) :
    ReadPacketTo c w =
      (some (Errorf ("invalid payload length " ++ toString 0)),
        { c with br := { c.br with pending := rest } }, w) := by
  rw [ReadPacketTo_unfold, ReadFull_header c.br b0 b1 b2 q rest h]
  simp [hz]

/-- A header with a positive length field and the wrong sequence byte. -/
theorem ReadPacketTo_mismatch (c : Conn) (w : Sink) (b0 b1 b2 q : Byte) (rest : List Byte)
    (h : c.br.pending = b0 :: b1 :: b2 :: q :: rest)
    (hlen : 1 ≤ headerLength [b0, b1, b2, q]) (hq : q ≠ c.Sequence) :
    ReadPacketTo c w =
      (some (Errorf ("invalid sequence " ++ toString q.val ++ " != "
          ++ toString c.Sequence.val)),
        { c with br := { c.br with pending := rest } }, w) := by
  rw [ReadPacketTo_unfold, ReadFull_header c.br b0 b1 b2 q rest h]
  have h1 : ¬ headerLength [b0, b1, b2, q] = 0 := by omega
  simp [h1, hq]

/-- A frame shorter than `MaxPayloadLen` that arrives in full ends the packet. -/
theorem ReadPacketTo_last (c : Conn) (w : Sink) (b0 b1 b2 : Byte) (payload rest : List Byte)
    (h : c.br.pending = frame b0 b1 b2 c.Sequence payload ++ rest)
    (hlen : headerLength [b0, b1, b2, c.Sequence] = payload.length)
    (h1 : 1 ≤ payload.length) (hM : payload.length < MaxPayloadLen) (hroom : w.room = none) :
    ReadPacketTo c w =
      (none, { c with br := { c.br with pending := rest }, Sequence := incr c.Sequence },
        { w with data := w.data ++ payload }) := by
  rw [ReadPacketTo_unfold, ReadFull_header c.br b0 b1 b2 c.Sequence (payload ++ rest) h]
  have h0 : ¬ payload.length = 0 := by omega
  simp only [hlen]
  rw [CopyN_full w _ payload rest hroom rfl]
  simp [h0, hM]

/-- A frame of length `MaxPayloadLen` that arrives in full is followed by another read. -/
theorem ReadPacketTo_more (c : Conn) (w : Sink) (payload rest : List Byte)
    (h : c.br.pending = frame 0xFF 0xFF 0xFF c.Sequence payload ++ rest)
    (hM : payload.length = MaxPayloadLen) (hroom : w.room = none) :
    ReadPacketTo c w =
      match ReadPacketTo
          { c with br := { c.br with pending := rest }, Sequence := incr c.Sequence }
          { w with data := w.data ++ payload } with
      | (some err, c2, w2) => (Trace (some err), c2, w2)
      | (none, c2, w2) => (none, c2, w2) := by
  rw [ReadPacketTo_unfold, ReadFull_header c.br 0xFF 0xFF 0xFF c.Sequence (payload ++ rest) h]
  have hlen : headerLength [0xFF, 0xFF, 0xFF, c.Sequence] = payload.length := by
    rw [headerLength_max, hM]
  have h0 : ¬ payload.length = 0 := by rw [hM]; decide
  have h2 : ¬ payload.length < MaxPayloadLen := by omega
  simp only [hlen]
  rw [CopyN_full w _ payload rest hroom rfl]
  simp [h0, h2]

theorem ReadPacket_of_error (c : Conn) (err : Error) (c1 : Conn) (w1 : Sink)
    (h : ReadPacketTo c { data := [], room := none } = (some err, c1, w1)) :
    ReadPacket c = (none, Trace (some err), c1) := by
  simp [ReadPacket, h]

theorem ReadPacket_of_ok (c : Conn) (c1 : Conn) (w1 : Sink)
    (h : ReadPacketTo c { data := [], room := none } = (none, c1, w1)) :
    ReadPacket c = (some w1.data, none, c1) := by
  simp [ReadPacket, h]

theorem ReadPacket_zero (c : Conn) (q : Byte) (rest : List Byte)
    (h : c.br.pending = 0 :: 0 :: 0 :: q :: rest) :
    (ReadPacket c).1 = none
      ∧ (ReadPacket c).2.1 = Trace (some (Errorf "invalid payload length 0")) := by
  rw [ReadPacket_of_error c _ _ _
    (ReadPacketTo_zero c { data := [], room := none } 0 0 0 q rest h (headerLength_zero q []))]
  exact ⟨rfl, rfl⟩

/-! ## The reader on a whole packet -/

theorem headerLength_three (b0 b1 b2 q : Byte) (rest : List Byte) :
    headerLength (b0 :: b1 :: b2 :: q :: rest) = headerLength [b0, b1, b2] := by
  simp [headerLength]

theorem ReadPacketTo_frames (ps : List (List Byte)) :
    ∀ (c : Conn) (w : Sink) (s : Byte) (i : Nat) (b0 b1 b2 : Byte) (last rest : List Byte),
      c.Sequence = seqAdd s i →
      (∀ p ∈ ps, p.length = MaxPayloadLen) →
      headerLength [b0, b1, b2] = last.length →
      1 ≤ last.length → last.length < MaxPayloadLen →
      w.room = none →
      c.br.pending
        = maxFrames s i ps ++ (frame b0 b1 b2 (seqAdd s (i + ps.length)) last ++ rest) →
      ReadPacketTo c w =
        (none,
          { c with br := { c.br with pending := rest },
                   Sequence := seqAdd s (i + ps.length + 1) },
          { w with data := w.data ++ (ps.flatten ++ last) }) := by
  induction ps with
  | nil =>
    intro c w s i b0 b1 b2 last rest hs _ hlen h1 hM hroom hp
    simp only [maxFrames, List.nil_append, List.length_nil, Nat.add_zero] at hp
    rw [← hs] at hp
    rw [ReadPacketTo_last c w b0 b1 b2 last rest hp
      (by rw [headerLength_three]; exact hlen) h1 hM hroom]
    simp [hs, incr_seqAdd]
  | cons p ps ih =>
    intro c w s i b0 b1 b2 last rest hs hps hlen h1 hM hroom hp
    have hpM : p.length = MaxPayloadLen := hps p (List.mem_cons_self _ _)
    simp only [maxFrames, List.append_assoc, List.length_cons] at hp
    rw [← hs] at hp
    rw [ReadPacketTo_more c w p _ hp hpM hroom]
    have hi : i + (ps.length + 1) = i + 1 + ps.length := by omega
    rw [ih { c with br := { c.br with pending := _ }, Sequence := incr c.Sequence }
      { w with data := w.data ++ p } s (i + 1) b0 b1 b2 last rest
      (by simp only [hs, incr_seqAdd])
      (fun q hq => hps q (List.mem_cons_of_mem _ hq)) hlen h1 hM hroom
      (by simp only [hi])]
    simp only [List.length_cons, List.flatten_cons, List.append_assoc, hi]

/-! ## The frames of the spec, one chunk at a time -/

theorem wireFrames_lt (P : List Byte) (s : Byte) (h : P.length < MaxPayloadLen) :
    wireFrames P s = [finalFrame P s 0] := by
  simp [wireFrames, Nat.div_eq_of_lt h]

theorem fullFrame_succ (P : List Byte) (s : Byte) (i : Nat) :
    fullFrame P s (i + 1) = fullFrame (P.drop MaxPayloadLen) (incr s) i := by
  simp only [fullFrame, seqAdd_incr, List.drop_drop]
  congr 3
  rw [Nat.add_mul, Nat.one_mul, Nat.add_comm]

theorem finalFrame_succ (P : List Byte) (s : Byte) (k : Nat) :
    finalFrame P s (k + 1) = finalFrame (P.drop MaxPayloadLen) (incr s) k := by
  have e2 : (k + 1) * MaxPayloadLen = MaxPayloadLen + k * MaxPayloadLen := by
    rw [Nat.add_mul, Nat.one_mul, Nat.add_comm]
  simp only [finalFrame, seqAdd_incr, List.drop_drop, List.length_drop, e2, Nat.sub_sub]

theorem wireFrames_ge (P : List Byte) (s : Byte) (h : MaxPayloadLen ≤ P.length) :
    wireFrames P s = fullFrame P s 0 :: wireFrames (P.drop MaxPayloadLen) (incr s) := by
  have hk : P.length / MaxPayloadLen = (P.length - MaxPayloadLen) / MaxPayloadLen + 1 := by
    rw [Nat.div_eq_sub_div MaxPayloadLen_pos h]
  have hmap : List.map (fullFrame P s ∘ Nat.succ)
        (List.range ((P.length - MaxPayloadLen) / MaxPayloadLen))
      = List.map (fullFrame (P.drop MaxPayloadLen) (incr s))
        (List.range ((P.length - MaxPayloadLen) / MaxPayloadLen)) :=
    List.map_congr_left (fun i _ => fullFrame_succ P s i)
  simp only [wireFrames, hk, List.length_drop]
  rw [List.range_succ_eq_map, List.map_cons, List.map_map, List.cons_append, finalFrame_succ,
    hmap]

theorem wireFrames_length (P : List Byte) (s : Byte) :
    (wireFrames P s).length = P.length / MaxPayloadLen + 1 := by
  simp [wireFrames]

/-! ## The writer, one write at a time -/

theorem stampHeader_cons (h0 h1 h2 h3 v0 v1 v2 v3 : Byte) (P : List Byte) :
    stampHeader (h0 :: h1 :: h2 :: h3 :: P) v0 v1 v2 v3 = (none, v0 :: v1 :: v2 :: v3 :: P) := by
  have e1 : ¬ (P.length + 1 + 1 + 1 + 1 < 1) := by omega
  have e2 : ¬ (P.length + 1 + 1 + 1 + 1 < 2) := by omega
  have e3 : ¬ (P.length + 1 + 1 + 1 + 1 < 3) := by omega
  have e4 : ¬ (P.length + 1 + 1 + 1 + 1 < 4) := by omega
  simp only [stampHeader, List.length_cons, e1, e2, e3, e4, if_false, List.set_cons_zero,
    List.set_cons_succ]

theorem byte_natCast (n : Nat) : byte (n : Int) = Fin.ofNat (n % 256) := by
  have h : ((n : Int) % 256).toNat = n % 256 := by omega
  simp only [byte, h]

theorem byte_shiftRight (n i : Nat) : byte ((n : Int) >>> i) = Fin.ofNat ((n >>> i) % 256) :=
  byte_natCast (n >>> i)

theorem exists_header (l : List Byte) (h : 4 ≤ l.length) :
    ∃ a b c d, l = a :: b :: c :: d :: l.drop 4 := by
  match l, h with
  | a :: b :: c :: d :: t, _ => exact ⟨a, b, c, d, rfl⟩

theorem take_header (v0 v1 v2 v3 : Byte) (P : List Byte) (n : Nat) :
    (v0 :: v1 :: v2 :: v3 :: P).take (4 + n) = v0 :: v1 :: v2 :: v3 :: P.take n := by
  rw [Nat.add_comm]
  simp only [List.take_succ_cons]

theorem drop_header (v0 v1 v2 v3 : Byte) (P : List Byte) (n : Nat) :
    ((v0 :: v1 :: v2 :: v3 :: P).drop n).drop 4 = P.drop n := by
  rw [List.drop_drop]
  simp only [List.drop_succ_cons]

theorem finalFrame_zero (P : List Byte) (s : Byte) :
    finalFrame P s 0
      = Fin.ofNat (P.length % 256) :: Fin.ofNat ((P.length >>> 8) % 256)
          :: Fin.ofNat ((P.length >>> 16) % 256) :: s :: P := by
  simp only [finalFrame, Nat.zero_mul, Nat.sub_zero, List.drop_zero, seqAdd_zero,
    List.cons_append, List.nil_append]

theorem fullFrame_zero (P : List Byte) (s : Byte) :
    fullFrame P s 0 = 0xFF :: 0xFF :: 0xFF :: s :: P.take MaxPayloadLen := by
  simp only [fullFrame, Nat.zero_mul, List.drop_zero, seqAdd_zero, List.cons_append,
    List.nil_append]

/-- The final write of WritePacket, reached when the rest of the payload is shorter than
`MaxPayloadLen`. -/
theorem loop_final (c : Conn) (nc : NetConn) (done : List Byte) (h0 h1 h2 h3 : Byte)
    (P : List Byte) (hc : c.netConn = some nc) (hlt : P.length < MaxPayloadLen) :
    WritePacket.loop c done (h0 :: h1 :: h2 :: h3 :: P) (P.length : Int) =
      match nc.Write (finalFrame P c.Sequence 0) with
      | (_, some err, nc1) =>
        ⟨.ok (some (.ConnError (Trace (some (.io err))) "Failed to write packet body")),
          { c with netConn := some nc1 }, done ++ finalFrame P c.Sequence 0⟩
      | (n, none, nc1) =>
        if n ≠ (finalFrame P c.Sequence 0).length then
          ⟨.ok (Trace (some (.ConnError none
              ("Packet body not fully written. Size: "
                ++ toString (finalFrame P c.Sequence 0).length
                ++ ", written " ++ toString n)))),
            { c with netConn := some nc1 }, done ++ finalFrame P c.Sequence 0⟩
        else
          ⟨.ok none, { c with netConn := some nc1, Sequence := incr c.Sequence },
            done ++ finalFrame P c.Sequence 0⟩ := by
  have hge : ¬ ((P.length : Int) ≥ (MaxPayloadLen : Int)) := by omega
  rw [WritePacket.loop, if_neg hge, stampHeader_cons, byte_natCast, byte_shiftRight,
    byte_shiftRight, finalFrame_zero]
  simp only [Conn.Write, hc]
  rcases nc.Write _ with ⟨n, _ | err, nc1⟩ <;> rfl

/-- One turn of the loop of WritePacket, taken when at least `MaxPayloadLen` payload bytes
are left. -/
theorem loop_chunk (c : Conn) (nc : NetConn) (done : List Byte) (h0 h1 h2 h3 : Byte)
    (P : List Byte) (hc : c.netConn = some nc) (hge : MaxPayloadLen ≤ P.length) :
    WritePacket.loop c done (h0 :: h1 :: h2 :: h3 :: P) (P.length : Int) =
      match nc.Write (fullFrame P c.Sequence 0) with
      | (_, some err, nc1) =>
        ⟨.ok (some (.ConnError (Trace (some (.io err))) "Failed to write packet header")),
          { c with netConn := some nc1 }, done ++ (0xff :: 0xff :: 0xff :: c.Sequence :: P)⟩
      | (n, none, nc1) =>
        if n ≠ 4 + MaxPayloadLen then
          ⟨.ok (Trace (some (.ConnError none
              ("Packet header not fully written. Size: " ++ toString (4 + MaxPayloadLen)
                ++ ", written " ++ toString n)))),
            { c with netConn := some nc1 },
            done ++ (0xff :: 0xff :: 0xff :: c.Sequence :: P)⟩
        else
          WritePacket.loop { c with netConn := some nc1, Sequence := incr c.Sequence }
            (done ++ (0xff :: 0xff :: 0xff :: c.Sequence :: P).take MaxPayloadLen)
            ((0xff :: 0xff :: 0xff :: c.Sequence :: P).drop MaxPayloadLen)
            ((P.length : Int) - MaxPayloadLen) := by
  have hge1 : (P.length : Int) ≥ (MaxPayloadLen : Int) := by omega
  have hlen : ¬ ((0xff :: 0xff :: 0xff :: c.Sequence :: P).length < 4 + MaxPayloadLen) := by
    simp only [List.length_cons]
    omega
  rw [WritePacket.loop, if_pos hge1, stampHeader_cons]
  simp only [hlen, if_false, take_header, Conn.Write, hc, fullFrame_zero]
  rcases nc.Write _ with ⟨n, _ | err, nc1⟩ <;> rfl

theorem Write_accepts (nc : NetConn) (p : List Byte) (h : nc.accepts p = true) :
    nc.Write p = (p.length, none, { nc with sent := nc.sent ++ [p], script := nc.script.tail }) := by
  unfold NetConn.accepts at h
  unfold NetConn.Write
  split
  · next hs => simp [hs]
  · next o rest hs =>
    simp only [hs, Bool.and_eq_true, Option.isNone_iff_eq_none, beq_iff_eq] at h
    simp [hs, h.1, h.2]

theorem Write_rejects (nc : NetConn) (p : List Byte) (h : nc.accepts p = false) :
    ∃ o rest, nc.script = o :: rest ∧ ¬ (o.err = none ∧ o.n = p.length)
      ∧ nc.Write p = (o.n, o.err, { nc with sent := nc.sent ++ [p.take o.n], script := rest }) := by
  unfold NetConn.accepts at h
  split at h
  · exact absurd h (by decide)
  · next o rest hs =>
    refine ⟨o, rest, hs, ?_, ?_⟩
    · intro hh
      simp [hh.1, hh.2] at h
    · simp [NetConn.Write, hs]

theorem fullFrame_zero_length (P : List Byte) (s : Byte) (hge : MaxPayloadLen ≤ P.length) :
    (fullFrame P s 0).length = 4 + MaxPayloadLen := by
  rw [fullFrame_zero]
  simp only [List.length_cons, List.length_take]
  omega

theorem loop_final_accepts (c : Conn) (nc : NetConn) (done : List Byte) (h0 h1 h2 h3 : Byte)
    (P : List Byte) (hc : c.netConn = some nc) (hlt : P.length < MaxPayloadLen)
    (hacc : nc.accepts (finalFrame P c.Sequence 0) = true) :
    WritePacket.loop c done (h0 :: h1 :: h2 :: h3 :: P) (P.length : Int) =
      ⟨.ok none,
        { c with
          netConn := some { nc with sent := nc.sent ++ [finalFrame P c.Sequence 0],
                                    script := nc.script.tail },
          Sequence := incr c.Sequence },
        done ++ finalFrame P c.Sequence 0⟩ := by
  rw [loop_final c nc done h0 h1 h2 h3 P hc hlt, Write_accepts nc _ hacc]
  simp

theorem loop_final_rejects (c : Conn) (nc : NetConn) (done : List Byte) (h0 h1 h2 h3 : Byte)
    (P : List Byte) (o : WriteOutcome) (rest : List WriteOutcome)
    (hc : c.netConn = some nc) (hlt : P.length < MaxPayloadLen)
    (hs : nc.script = o :: rest)
    (hrej : ¬ (o.err = none ∧ o.n = (finalFrame P c.Sequence 0).length)) :
    isConnFailure
        (WritePacket.loop c done (h0 :: h1 :: h2 :: h3 :: P) (P.length : Int)).result = true
      ∧ (WritePacket.loop c done (h0 :: h1 :: h2 :: h3 :: P) (P.length : Int)).conn =
        { c with netConn := some { nc with
            sent := nc.sent ++ [(finalFrame P c.Sequence 0).take o.n], script := rest } } := by
  rw [loop_final c nc done h0 h1 h2 h3 P hc hlt]
  simp only [NetConn.Write, hs]
  cases he : o.err with
  | some e => exact ⟨rfl, rfl⟩
  | none =>
    have hn : o.n ≠ (finalFrame P c.Sequence 0).length := fun hh => hrej ⟨he, hh⟩
    simp only [hn, ne_eq, not_false_eq_true, if_true]
    exact ⟨rfl, trivial⟩

theorem loop_chunk_accepts (c : Conn) (nc : NetConn) (done : List Byte) (h0 h1 h2 h3 : Byte)
    (P : List Byte) (hc : c.netConn = some nc) (hge : MaxPayloadLen ≤ P.length)
    (hacc : nc.accepts (fullFrame P c.Sequence 0) = true) :
    WritePacket.loop c done (h0 :: h1 :: h2 :: h3 :: P) (P.length : Int) =
      WritePacket.loop
        { c with
          netConn := some { nc with sent := nc.sent ++ [fullFrame P c.Sequence 0],
                                    script := nc.script.tail },
          Sequence := incr c.Sequence }
        (done ++ (0xff :: 0xff :: 0xff :: c.Sequence :: P).take MaxPayloadLen)
        ((0xff :: 0xff :: 0xff :: c.Sequence :: P).drop MaxPayloadLen)
        ((P.length : Int) - MaxPayloadLen) := by
  rw [loop_chunk c nc done h0 h1 h2 h3 P hc hge, Write_accepts nc _ hacc,
    fullFrame_zero_length P c.Sequence hge]
  simp

theorem loop_chunk_rejects (c : Conn) (nc : NetConn) (done : List Byte) (h0 h1 h2 h3 : Byte)
    (P : List Byte) (o : WriteOutcome) (rest : List WriteOutcome)
    (hc : c.netConn = some nc) (hge : MaxPayloadLen ≤ P.length)
    (hs : nc.script = o :: rest)
    (hrej : ¬ (o.err = none ∧ o.n = (fullFrame P c.Sequence 0).length)) :
    isConnFailure
        (WritePacket.loop c done (h0 :: h1 :: h2 :: h3 :: P) (P.length : Int)).result = true
      ∧ (WritePacket.loop c done (h0 :: h1 :: h2 :: h3 :: P) (P.length : Int)).conn =
        { c with netConn := some { nc with
            sent := nc.sent ++ [(fullFrame P c.Sequence 0).take o.n], script := rest } } := by
  rw [loop_chunk c nc done h0 h1 h2 h3 P hc hge]
  simp only [NetConn.Write, hs]
  cases he : o.err with
  | some e => exact ⟨rfl, rfl⟩
  | none =>
    have hn : o.n ≠ 4 + MaxPayloadLen := by
      rw [← fullFrame_zero_length P c.Sequence hge]
      exact fun hh => hrej ⟨he, hh⟩
    simp only [hn, ne_eq, not_false_eq_true, if_true]
    exact ⟨rfl, trivial⟩

/-! ## The writer on a whole buffer -/

theorem afterWrites_cons (c : Conn) (nc : NetConn) (f0 : List Byte) (sent : List (List Byte))
    (calls frames : Nat) :
    afterWrites
        { c with
          netConn := some { nc with sent := nc.sent ++ [f0], script := nc.script.tail },
          Sequence := incr c.Sequence }
        { nc with sent := nc.sent ++ [f0], script := nc.script.tail } sent calls frames
      = afterWrites c nc (f0 :: sent) (calls + 1) (frames + 1) := by
  have hd : List.drop calls nc.script.tail = List.drop (calls + 1) nc.script := by
    cases nc.script with
    | nil => simp
    | cons o rest => simp
  simp only [afterWrites, List.append_assoc, List.singleton_append, seqAdd_incr, hd]

theorem WroteAll_cons (r : WriteResult) (c : Conn) (nc : NetConn) (f0 : List Byte)
    (fs : List (List Byte))
    (h : WroteAll r
      { c with
        netConn := some { nc with sent := nc.sent ++ [f0], script := nc.script.tail },
        Sequence := incr c.Sequence }
      { nc with sent := nc.sent ++ [f0], script := nc.script.tail } fs) :
    WroteAll r c nc (f0 :: fs) := by
  refine ⟨h.1, ?_⟩
  rw [h.2, afterWrites_cons, List.length_cons]

theorem FailedAt_cons (r : WriteResult) (c : Conn) (nc : NetConn) (f0 : List Byte)
    (fs : List (List Byte)) (j : Nat) (o : WriteOutcome)
    (h : FailedAt r
      { c with
        netConn := some { nc with sent := nc.sent ++ [f0], script := nc.script.tail },
        Sequence := incr c.Sequence }
      { nc with sent := nc.sent ++ [f0], script := nc.script.tail } fs j o) :
    FailedAt r c nc (f0 :: fs) (j + 1) o := by
  obtain ⟨h1, h2, h3, h4, h5⟩ := h
  refine ⟨by simp only [List.length_cons]; omega, ?_, by simpa using h3, h4, ?_⟩
  · rw [← h2]
    cases nc.script with
    | nil => simp
    | cons o rest => simp
  · rw [h5, afterWrites_cons]
    simp

theorem loop_spec (k : Nat) :
    ∀ (c : Conn) (nc : NetConn) (done : List Byte) (h0 h1 h2 h3 : Byte) (P : List Byte),
      c.netConn = some nc → P.length / MaxPayloadLen = k →
      (nc.script = [] →
        WroteAll (WritePacket.loop c done (h0 :: h1 :: h2 :: h3 :: P) (P.length : Int)) c nc
          (wireFrames P c.Sequence))
      ∧ (WroteAll (WritePacket.loop c done (h0 :: h1 :: h2 :: h3 :: P) (P.length : Int)) c nc
          (wireFrames P c.Sequence)
        ∨ ∃ j o, FailedAt (WritePacket.loop c done (h0 :: h1 :: h2 :: h3 :: P) (P.length : Int))
            c nc (wireFrames P c.Sequence) j o) := by
  induction k with
  | zero =>
    intro c nc done h0 h1 h2 h3 P hc hk
    have hlt : P.length < MaxPayloadLen := (Nat.div_eq_zero_iff MaxPayloadLen_pos).1 hk
    rw [wireFrames_lt P c.Sequence hlt]
    cases hacc : nc.accepts (finalFrame P c.Sequence 0) with
    | true =>
      have hA : WroteAll (WritePacket.loop c done (h0 :: h1 :: h2 :: h3 :: P) (P.length : Int))
          c nc [finalFrame P c.Sequence 0] := by
        rw [loop_final_accepts c nc done h0 h1 h2 h3 P hc hlt hacc]
        refine ⟨rfl, ?_⟩
        simp only [afterWrites, List.length_singleton, List.drop_one, incr_eq_seqAdd]
      exact ⟨fun _ => hA, Or.inl hA⟩
    | false =>
      obtain ⟨o, rest, hs, hrej, -⟩ := Write_rejects nc _ hacc
      have hR := loop_final_rejects c nc done h0 h1 h2 h3 P o rest hc hlt hs hrej
      refine ⟨fun h => ?_, Or.inr ⟨0, o, ?_⟩⟩
      · rw [h] at hs
        exact absurd hs (by simp)
      · refine ⟨by simp, by simp [hs], by simpa using hrej, hR.1, ?_⟩
        rw [hR.2]
        simp [afterWrites, hs, seqAdd_zero]
  | succ k ih =>
    intro c nc done h0 h1 h2 h3 P hc hk
    have hge : MaxPayloadLen ≤ P.length := by
      by_contra hlt
      rw [Nat.div_eq_of_lt (by omega)] at hk
      omega
    rw [wireFrames_ge P c.Sequence hge]
    cases hacc : nc.accepts (fullFrame P c.Sequence 0) with
    | true =>
      rw [loop_chunk_accepts c nc done h0 h1 h2 h3 P hc hge hacc]
      have h4 : 4 ≤ ((0xff :: 0xff :: 0xff :: c.Sequence :: P).drop MaxPayloadLen).length := by
        simp only [List.length_drop, List.length_cons]
        omega
      obtain ⟨a, b, c', d, hdata⟩ := exists_header _ h4
      rw [drop_header] at hdata
      have hlen : (P.length : Int) - (MaxPayloadLen : Int)
          = ((P.drop MaxPayloadLen).length : Int) := by
        rw [List.length_drop]
        omega
      have hk' : (P.drop MaxPayloadLen).length / MaxPayloadLen = k := by
        rw [Nat.div_eq_sub_div MaxPayloadLen_pos hge] at hk
        rw [List.length_drop]
        omega
      rw [hdata, hlen]
      have IH := ih
        { c with
          netConn := some { nc with sent := nc.sent ++ [fullFrame P c.Sequence 0],
                                    script := nc.script.tail },
          Sequence := incr c.Sequence }
        { nc with sent := nc.sent ++ [fullFrame P c.Sequence 0], script := nc.script.tail }
        (done ++ (0xff :: 0xff :: 0xff :: c.Sequence :: P).take MaxPayloadLen)
        a b c' d (P.drop MaxPayloadLen) rfl hk'
      refine ⟨fun hnil => WroteAll_cons _ c nc _ _ (IH.1 (by simp [hnil])), ?_⟩
      rcases IH.2 with hA | ⟨j, o, hF⟩
      · exact Or.inl (WroteAll_cons _ c nc _ _ hA)
      · exact Or.inr ⟨j + 1, o, FailedAt_cons _ c nc _ _ j o hF⟩
    | false =>
      obtain ⟨o, rest, hs, hrej, -⟩ := Write_rejects nc _ hacc
      have hR := loop_chunk_rejects c nc done h0 h1 h2 h3 P o rest hc hge hs hrej
      refine ⟨fun h => ?_, Or.inr ⟨0, o, ?_⟩⟩
      · rw [h] at hs
        exact absurd hs (by simp)
      · refine ⟨by simp, by simp [hs], by simpa using hrej, hR.1, ?_⟩
        rw [hR.2]
        simp [afterWrites, hs, seqAdd_zero]

theorem WritePacket_spec (c : Conn) (nc : NetConn) (data : List Byte)
    (h4 : 4 ≤ data.length) (hc : c.netConn = some nc) :
    (nc.script = [] →
        WroteAll (WritePacket c data) c nc (wireFrames (data.drop 4) c.Sequence))
      ∧ (WroteAll (WritePacket c data) c nc (wireFrames (data.drop 4) c.Sequence)
        ∨ ∃ j o, FailedAt (WritePacket c data) c nc (wireFrames (data.drop 4) c.Sequence) j o) := by
  obtain ⟨h0, h1, h2, h3, hd⟩ := exists_header data h4
  have hlen : (data.length : Int) - 4 = ((data.drop 4).length : Int) := by
    rw [List.length_drop]
    omega
  have h := loop_spec ((data.drop 4).length / MaxPayloadLen) c nc [] h0 h1 h2 h3 (data.drop 4)
    hc rfl
  rw [← hd, ← hlen] at h
  exact h

theorem wire_afterWrites (c : Conn) (nc : NetConn) (sent : List (List Byte))
    (calls frames : Nat) (hc : c.netConn = some nc) :
    wire (afterWrites c nc sent calls frames) = wire c ++ sent.flatten := by
  simp [wire, afterWrites, hc]

theorem wire_WritePacket (c : Conn) (nc : NetConn) (data : List Byte)
    (h4 : 4 ≤ data.length) (hc : c.netConn = some nc) (hs : nc.script = []) :
    wire (WritePacket c data).conn = wire c ++ (wireFrames (data.drop 4) c.Sequence).flatten := by
  rw [((WritePacket_spec c nc data h4 hc).1 hs).2, wire_afterWrites c nc _ _ _ hc]

/-- C3: when the buffer has at least 4 bytes and the stream accepts every write in full,
WritePacket returns nil and the stream receives, one call of `Write` per frame, exactly the
frames `wireFrames P s` of the payload `P = data[4:]`: `k = len(P) / MaxPayloadLen` frames
`[0xFF, 0xFF, 0xFF, (s+i) mod 256] ++ P[i*MaxPayloadLen : (i+1)*MaxPayloadLen]` and the final
frame with the three little-endian bytes of `r = len(P) - k*MaxPayloadLen < MaxPayloadLen`,
the sequence byte `(s+k) mod 256` and `P[k*MaxPayloadLen:]`; the bytes on the wire are a
function of `data[4:]` alone. -/
theorem C3_wire_output (c : Conn) (nc : NetConn) (data : List Byte)
    (h4 : 4 ≤ data.length) (hc : c.netConn = some nc) (hs : nc.script = []) :
    (WritePacket c data).result = .ok none
      ∧ (WritePacket c data).conn.netConn
          = some { nc with sent := nc.sent ++ wireFrames (data.drop 4) c.Sequence }
      ∧ wire (WritePacket c data).conn
          = wire c ++ (wireFrames (data.drop 4) c.Sequence).flatten
      ∧ (wireFrames (data.drop 4) c.Sequence).length
          = (data.drop 4).length / MaxPayloadLen + 1
      ∧ (data.drop 4).length - (data.drop 4).length / MaxPayloadLen * MaxPayloadLen
          < MaxPayloadLen
      ∧ (∀ data2 : List Byte, 4 ≤ data2.length → data2.drop 4 = data.drop 4 →
          wire (WritePacket c data2).conn = wire (WritePacket c data).conn) := by
  have hA := (WritePacket_spec c nc data h4 hc).1 hs
  refine ⟨hA.1, ?_, ?_, wireFrames_length _ _, ?_, ?_⟩
  · rw [hA.2]
    simp [afterWrites, hs]
  · rw [hA.2, wire_afterWrites c nc _ _ _ hc]
  · have := Nat.mod_lt (data.drop 4).length MaxPayloadLen_pos
    rw [Nat.mod_def, Nat.mul_comm] at this
    exact this
  · intro data2 h42 hd
    have hA2 := (WritePacket_spec c nc data2 h42 hc).1 hs
    rw [hA.2, hA2.2, hd]

/-- A payload of three bytes sent from sequence 5 behind four reserved bytes. -/
theorem C3_wire_output_witness :
    (WritePacket (writerOf [] 5) [9, 9, 9, 9, 1, 2, 3]).result = .ok none
      ∧ wire (WritePacket (writerOf [] 5) [9, 9, 9, 9, 1, 2, 3]).conn
          = (wireFrames [1, 2, 3] 5).flatten :=
  have h := C3_wire_output (writerOf [] 5)
    { sent := [], script := [], closes := 0, closeErr := none } [9, 9, 9, 9, 1, 2, 3]
    (by decide) rfl rfl
  ⟨h.1, h.2.2.1⟩

/-- C4: for a buffer of at least 4 bytes and any outcomes of the stream's writes, WritePacket
either returns nil after one write per frame of `wireFrames P s` (`len(P)/MaxPayloadLen + 1`
frames) with `Sequence` advanced once per frame, or fails at the write of some index
`j ≤ len(P)/MaxPayloadLen` with an error that IsConnError classifies as true: the `j` frames
before it are on the stream in full, the failing write is the last call made, and `Sequence`
advanced exactly `j` times. -/
theorem C4_writer_accounting (c : Conn) (nc : NetConn) (data : List Byte)
    (h4 : 4 ≤ data.length) (hc : c.netConn = some nc) :
    (wireFrames (data.drop 4) c.Sequence).length = (data.drop 4).length / MaxPayloadLen + 1
      ∧ (((WritePacket c data).result = .ok none
          ∧ (WritePacket c data).conn
              = afterWrites c nc (wireFrames (data.drop 4) c.Sequence)
                  ((data.drop 4).length / MaxPayloadLen + 1)
                  ((data.drop 4).length / MaxPayloadLen + 1))
        ∨ ∃ j o, j ≤ (data.drop 4).length / MaxPayloadLen
          ∧ nc.script.get? j = some o
          ∧ ¬ (o.err = none ∧ o.n = ((wireFrames (data.drop 4) c.Sequence).getD j []).length)
          ∧ isConnFailure (WritePacket c data).result = true
          ∧ (WritePacket c data).conn
              = afterWrites c nc
                  ((wireFrames (data.drop 4) c.Sequence).take j
                    ++ [((wireFrames (data.drop 4) c.Sequence).getD j []).take o.n])
                  (j + 1) j) := by
  have hl := wireFrames_length (data.drop 4) c.Sequence
  refine ⟨hl, ?_⟩
  rcases (WritePacket_spec c nc data h4 hc).2 with hA | ⟨j, o, hF⟩
  · left
    rw [← hl]
    exact hA
  · right
    obtain ⟨h1, h2, h3, h5, h6⟩ := hF
    exact ⟨j, o, by omega, h2, h3, h5, h6⟩

/-- A stream whose first write takes 2 of the 6 bytes. -/
theorem C4_writer_accounting_witness :
    isConnFailure (WritePacket (writerOf [⟨2, none⟩] 5) [9, 9, 9, 9, 1, 2]).result = true
      ∨ (WritePacket (writerOf [⟨2, none⟩] 5) [9, 9, 9, 9, 1, 2]).result = .ok none := by
  rcases (C4_writer_accounting (writerOf [⟨2, none⟩] 5)
    { sent := [], script := [⟨2, none⟩], closes := 0, closeErr := none }
    [9, 9, 9, 9, 1, 2] (by decide) rfl).2 with h | ⟨j, o, h⟩
  · exact Or.inr h.1
  · exact Or.inl h.2.2.2.1

theorem wireFrames_getD_lt (P : List Byte) (s : Byte) (i : Nat)
    (hi : i < P.length / MaxPayloadLen) :
    (wireFrames P s).getD i [] = fullFrame P s i := by
  simp only [wireFrames]
  rw [List.getD_append _ _ _ _ (by simpa using hi)]
  simp [List.getD_eq_getElem?_getD, hi]

theorem wireFrames_getD_last (P : List Byte) (s : Byte) :
    (wireFrames P s).getD (P.length / MaxPayloadLen) [] = finalFrame P s (P.length / MaxPayloadLen) := by
  simp only [wireFrames]
  rw [List.getD_append_right _ _ _ _ (by simp)]
  simp

/-- C9: when the payload has length exactly `m * MaxPayloadLen` and WritePacket returns nil,
it has made exactly `m + 1` writes: for `i < m` the frame with header `0xFF 0xFF 0xFF`
(length field `MaxPayloadLen`) and `MaxPayloadLen` payload bytes, and last the frame
`[0, 0, 0, (s+m) mod 256]`, with length field 0 and no payload. -/
theorem C9_exact_multiples (c : Conn) (nc : NetConn) (data : List Byte) (m : Nat)
    (hc : c.netConn = some nc) (hlen : data.length = 4 + m * MaxPayloadLen)
    (hok : (WritePacket c data).result = .ok none) :
    (WritePacket c data).conn.netConn
        = some { nc with sent := nc.sent ++ wireFrames (data.drop 4) c.Sequence,
                         script := nc.script.drop (m + 1) }
      ∧ (wireFrames (data.drop 4) c.Sequence).length = m + 1
      ∧ (∀ i, i < m →
          (wireFrames (data.drop 4) c.Sequence).getD i []
              = 0xFF :: 0xFF :: 0xFF :: seqAdd c.Sequence i
                  :: ((data.drop 4).drop (i * MaxPayloadLen)).take MaxPayloadLen
            ∧ (((data.drop 4).drop (i * MaxPayloadLen)).take MaxPayloadLen).length
                = MaxPayloadLen)
      ∧ (wireFrames (data.drop 4) c.Sequence).getD m [] = [0, 0, 0, seqAdd c.Sequence m]
      ∧ headerLength [0xFF, 0xFF, 0xFF] = MaxPayloadLen ∧ headerLength [0, 0, 0] = 0 := by
  have hP : (data.drop 4).length = m * MaxPayloadLen := by
    rw [List.length_drop]
    omega
  have hk : (data.drop 4).length / MaxPayloadLen = m := by
    rw [hP, Nat.mul_div_cancel m MaxPayloadLen_pos]
  have hl := wireFrames_length (data.drop 4) c.Sequence
  rw [hk] at hl
  have hA : WroteAll (WritePacket c data) c nc (wireFrames (data.drop 4) c.Sequence) := by
    rcases (WritePacket_spec c nc data (by omega) hc).2 with hA | ⟨j, o, hF⟩
    · exact hA
    · have h5 := hF.2.2.2.1
      rw [hok] at h5
      exact absurd h5 (by decide)
  refine ⟨?_, hl, ?_, ?_, by decide, by decide⟩
  · rw [hA.2, hl]
    rfl
  · intro i hi
    have hmul : (i + 1) * MaxPayloadLen ≤ m * MaxPayloadLen :=
      Nat.mul_le_mul_right _ (by omega)
    rw [Nat.add_mul, Nat.one_mul] at hmul
    constructor
    · rw [wireFrames_getD_lt _ _ _ (by rw [hk]; exact hi)]
      rfl
    · rw [List.length_take, List.length_drop, hP]
      omega
  · have h := wireFrames_getD_last (data.drop 4) c.Sequence
    rw [hk] at h
    rw [h]
    have hdrop : List.drop (m * MaxPayloadLen) (data.drop 4) = [] :=
      List.drop_eq_nil_of_le (by omega)
    simp only [finalFrame, hP, Nat.sub_self, hdrop, List.append_nil]
    rfl

/-- A payload of exactly `MaxPayloadLen` bytes: two frames, the second one empty. -/
theorem C9_exact_multiples_witness :
    (wireFrames ((List.replicate (4 + 1 * MaxPayloadLen) (0 : Byte)).drop 4) 7).length = 2
      ∧ (wireFrames ((List.replicate (4 + 1 * MaxPayloadLen) (0 : Byte)).drop 4) 7).getD 1 []
          = [0, 0, 0, 8] :=
  have h := C9_exact_multiples (writerOf [] 7)
    { sent := [], script := [], closes := 0, closeErr := none }
    (List.replicate (4 + 1 * MaxPayloadLen) 0) 1 rfl (List.length_replicate _ _)
    ((WritePacket_spec (writerOf [] 7)
      { sent := [], script := [], closes := 0, closeErr := none }
      (List.replicate (4 + 1 * MaxPayloadLen) 0)
      (by rw [List.length_replicate]; exact Nat.le_add_right _ _) rfl).1 rfl).1
  ⟨h.2.1, h.2.2.2.1⟩

/-! ## Writing, then reading back -/

theorem MaxPayloadLen_eq : MaxPayloadLen = 16777215 := rfl

theorem headerLength_finalFrame (n : Nat) (q : Byte) (hn : n < MaxPayloadLen) :
    headerLength [Fin.ofNat (n % 256), Fin.ofNat ((n >>> 8) % 256),
      Fin.ofNat ((n >>> 16) % 256), q] = n := by
  rw [headerLength_eq]
  rw [MaxPayloadLen_eq] at hn
  simp only [Fin.ofNat, Nat.shiftRight_eq_div_pow]
  omega

theorem ReadPacketTo_wireFrames (k : Nat) :
    ∀ (P : List Byte) (c : Conn) (w : Sink) (rest : List Byte),
      P.length / MaxPayloadLen = k → P.length % MaxPayloadLen ≠ 0 → w.room = none →
      c.br.pending = (wireFrames P c.Sequence).flatten ++ rest →
      ReadPacketTo c w =
        (none,
          { c with br := { c.br with pending := rest },
                   Sequence := seqAdd c.Sequence (k + 1) },
          { w with data := w.data ++ P }) := by
  induction k with
  | zero =>
    intro P c w rest hk hmod hroom hp
    have hlt : P.length < MaxPayloadLen := (Nat.div_eq_zero_iff MaxPayloadLen_pos).1 hk
    have h1 : 1 ≤ P.length := by
      rw [Nat.mod_eq_of_lt hlt] at hmod
      omega
    rw [wireFrames_lt P c.Sequence hlt, finalFrame_zero] at hp
    simp only [List.flatten_cons, List.flatten_nil, List.append_nil] at hp
    rw [ReadPacketTo_last c w _ _ _ P rest hp (headerLength_finalFrame _ _ hlt) h1 hlt hroom]
    rfl
  | succ k ih =>
    intro P c w rest hk hmod hroom hp
    have hge : MaxPayloadLen ≤ P.length := by
      by_contra hlt
      rw [Nat.div_eq_of_lt (by omega)] at hk
      omega
    rw [wireFrames_ge P c.Sequence hge, fullFrame_zero] at hp
    simp only [List.flatten_cons, List.append_assoc] at hp
    have htake : (P.take MaxPayloadLen).length = MaxPayloadLen := by
      rw [List.length_take]
      omega
    rw [ReadPacketTo_more c w (P.take MaxPayloadLen) _ hp htake hroom]
    have hk' : (P.drop MaxPayloadLen).length / MaxPayloadLen = k := by
      rw [Nat.div_eq_sub_div MaxPayloadLen_pos hge] at hk
      rw [List.length_drop]
      omega
    have hmod' : (P.drop MaxPayloadLen).length % MaxPayloadLen ≠ 0 := by
      rw [List.length_drop, ← Nat.mod_eq_sub_mod hge]
      exact hmod
    rw [ih (P.drop MaxPayloadLen)
      { c with br := { c.br with pending := _ }, Sequence := incr c.Sequence }
      { w with data := w.data ++ P.take MaxPayloadLen } rest hk' hmod' hroom rfl]
    simp only [seqAdd_incr, List.append_assoc, List.take_append_drop]

theorem ceil_div_eq (L : Nat) (h : L % MaxPayloadLen ≠ 0) :
    max 1 ((L + MaxPayloadLen - 1) / MaxPayloadLen) = L / MaxPayloadLen + 1 := by
  rw [MaxPayloadLen_eq] at h ⊢
  omega

theorem round_trip (wc rc : Conn) (nc : NetConn) (hdr M : List Byte)
    (hhdr : hdr.length = 4) (hwc : wc.netConn = some nc) (hscript : nc.script = [])
    (hM : M.length % MaxPayloadLen ≠ 0) (hseq : rc.Sequence = wc.Sequence)
    (hloop : wire (WritePacket wc (hdr ++ M)).conn = wire wc ++ rc.br.pending) :
    (WritePacket wc (hdr ++ M)).result = .ok none
      ∧ (WritePacket wc (hdr ++ M)).conn.Sequence
          = seqAdd wc.Sequence (M.length / MaxPayloadLen + 1)
      ∧ ReadPacket rc =
          (some M, none,
            { rc with br := { rc.br with pending := [] },
                      Sequence := seqAdd rc.Sequence (M.length / MaxPayloadLen + 1) }) := by
  have h4 : 4 ≤ (hdr ++ M).length := by
    rw [List.length_append]
    omega
  have hdrop : (hdr ++ M).drop 4 = M := by
    rw [← hhdr]
    exact List.drop_left _ _
  have hA := (WritePacket_spec wc nc (hdr ++ M) h4 hwc).1 hscript
  rw [hdrop] at hA
  have hpend : rc.br.pending = (wireFrames M rc.Sequence).flatten ++ [] := by
    rw [hA.2, wire_afterWrites wc nc _ _ _ hwc] at hloop
    rw [List.append_nil, hseq]
    exact (List.append_cancel_left hloop).symm
  refine ⟨hA.1, ?_, ?_⟩
  · rw [hA.2, wireFrames_length]
    rfl
  · have hr := ReadPacketTo_wireFrames (M.length / MaxPayloadLen) M rc
      { data := [], room := none } [] rfl hM rfl hpend
    rw [ReadPacket_of_ok rc _ _ hr]
    simp

/-! ## Properties of the reader -/

/-- C5: when the stream holds `k` frames with length bytes `0xFF 0xFF 0xFF` and sequence bytes
`(s+i) mod 256`, each with `MaxPayloadLen` payload bytes, then one frame whose length field is
`n` with `1 ≤ n < MaxPayloadLen`, sequence byte `(s+k) mod 256` and `n` payload bytes, and the
sink accepts every write, ReadPacketTo returns nil, appends the `k+1` payloads in order to the
sink, leaves exactly the bytes after these frames unread and leaves
`Sequence = (s+k+1) mod 256`. -/
theorem C5_reader_reassembly (c : Conn) (w : Sink) (ps : List (List Byte)) (b0 b1 b2 : Byte)
    (last rest : List Byte)
    (hps : ∀ p ∈ ps, p.length = MaxPayloadLen)
    (hlen : headerLength [b0, b1, b2] = last.length)
    (h1 : 1 ≤ last.length) (hM : last.length < MaxPayloadLen)
    (hroom : w.room = none)
    (hp : c.br.pending
      = maxFrames c.Sequence 0 ps
          ++ (frame b0 b1 b2 (seqAdd c.Sequence ps.length) last ++ rest)) :
    ReadPacketTo c w =
      (none,
        { c with br := { c.br with pending := rest },
                 Sequence := seqAdd c.Sequence (ps.length + 1) },
        { w with data := w.data ++ (ps.flatten ++ last) }) := by
  have h := ReadPacketTo_frames ps c w c.Sequence 0 b0 b1 b2 last rest
    (seqAdd_zero c.Sequence).symm hps hlen h1 hM hroom (by rw [Nat.zero_add]; exact hp)
  rw [h, Nat.zero_add]

/-- A run of C5 with one frame of full length followed by a frame of two bytes. -/
theorem C5_reader_reassembly_witness :
    ReadPacketTo
        (readerOf (maxFrames 255 0 [List.replicate MaxPayloadLen 7]
          ++ (frame 2 0 0 (seqAdd 255 1) [8, 9] ++ [1, 0, 0, 1, 5])) 255)
        (bufferOf [3])
      = (none, readerOf [1, 0, 0, 1, 5] 1,
          bufferOf ([3] ++ ([List.replicate MaxPayloadLen 7].flatten ++ [8, 9]))) :=
  C5_reader_reassembly _ _ [List.replicate MaxPayloadLen 7] 2 0 0 [8, 9] [1, 0, 0, 1, 5]
    (by simp) (by decide) (by decide) (by decide) rfl rfl

/-- C6: a header with length field at least 1 whose sequence byte differs from `Sequence`
makes ReadPacketTo return an error that IsConnError classifies as false, with `Sequence` and
the sink unchanged. -/
theorem C6_sequence_mismatch (c : Conn) (w : Sink) (b0 b1 b2 q : Byte) (rest : List Byte)
    (h : c.br.pending = b0 :: b1 :: b2 :: q :: rest)
    (hlen : 1 ≤ headerLength [b0, b1, b2]) (hq : q ≠ c.Sequence) :
    (ReadPacketTo c w).1.isSome = true ∧ IsConnError (ReadPacketTo c w).1 = false
      ∧ (ReadPacketTo c w).2.1.Sequence = c.Sequence ∧ (ReadPacketTo c w).2.2 = w := by
  rw [ReadPacketTo_mismatch c w b0 b1 b2 q rest h (by rw [headerLength_three]; exact hlen) hq]
  exact ⟨rfl, rfl, rfl, rfl⟩

/-- The case of the spec: the reader expects sequence 5 and the header carries 6. -/
theorem C6_sequence_mismatch_witness :
    (ReadPacketTo (readerOf [1, 0, 0, 6, 42] 5) (bufferOf [])).1.isSome = true
      ∧ IsConnError (ReadPacketTo (readerOf [1, 0, 0, 6, 42] 5) (bufferOf [])).1 = false
      ∧ (ReadPacketTo (readerOf [1, 0, 0, 6, 42] 5) (bufferOf [])).2.1.Sequence = 5
      ∧ (ReadPacketTo (readerOf [1, 0, 0, 6, 42] 5) (bufferOf [])).2.2 = bufferOf [] :=
  C6_sequence_mismatch (readerOf [1, 0, 0, 6, 42] 5) (bufferOf []) 1 0 0 6 [42] rfl
    (by decide) (by decide)

/-- C7: a header whose three length bytes are 0 makes ReadPacketTo return the invalid-length
error, whatever the sequence byte; IsConnError classifies it as false, `Sequence` and the sink
are unchanged, and ReadPacket returns a nil slice with that error, traced. -/
theorem C7_zero_length_rejected (c : Conn) (w : Sink) (q : Byte) (rest : List Byte)
    (h : c.br.pending = 0 :: 0 :: 0 :: q :: rest) :
    (ReadPacketTo c w).1 = some (Errorf "invalid payload length 0")
      ∧ IsConnError (ReadPacketTo c w).1 = false
      ∧ (ReadPacketTo c w).2.1.Sequence = c.Sequence ∧ (ReadPacketTo c w).2.2 = w
      ∧ (ReadPacket c).1 = none
      ∧ (ReadPacket c).2.1 = Trace (some (Errorf "invalid payload length 0"))
      ∧ (ReadPacket c).2.1.map Cause = some (Errorf "invalid payload length 0")
      ∧ IsConnError (ReadPacket c).2.1 = false
      ∧ (ReadPacket c).2.2.Sequence = c.Sequence := by
  have hz : headerLength [0, 0, 0, q] = 0 := headerLength_zero q []
  have hw := ReadPacketTo_zero c w 0 0 0 q rest h hz
  have hb := ReadPacketTo_zero c { data := [], room := none } 0 0 0 q rest h hz
  rw [ReadPacket_of_error c _ _ _ hb, hw]
  exact ⟨rfl, rfl, rfl, rfl, rfl, rfl, rfl, rfl, rfl⟩

/-- A zero-length header whose sequence byte matches the counter. -/
theorem C7_zero_length_rejected_witness :
    IsConnError (ReadPacketTo (readerOf [0, 0, 0, 5, 1] 5) (bufferOf [])).1 = false
      ∧ (ReadPacket (readerOf [0, 0, 0, 5, 1] 5)).1 = none :=
  have h := C7_zero_length_rejected (readerOf [0, 0, 0, 5, 1] 5) (bufferOf []) 5 [1] rfl
  ⟨h.2.1, h.2.2.2.2.1⟩

/-- C10: when the stream ends or fails before 4 header bytes arrived, ReadPacketTo returns an
error that IsConnError classifies as true, with `Sequence` and the sink unchanged, and
ReadPacket returns a nil slice and an error that IsConnError classifies as true. -/
theorem C10_short_header (c : Conn) (w : Sink) (h : c.br.pending.length < 4) :
    (ReadPacketTo c w).1.isSome = true ∧ IsConnError (ReadPacketTo c w).1 = true
      ∧ (ReadPacketTo c w).2.1.Sequence = c.Sequence ∧ (ReadPacketTo c w).2.2 = w
      ∧ (ReadPacket c).1 = none ∧ (ReadPacket c).2.1.isSome = true
      ∧ IsConnError (ReadPacket c).2.1 = true
      ∧ (ReadPacket c).2.2.Sequence = c.Sequence := by
  rw [ReadPacket_of_error c _ _ _ (ReadPacketTo_short c { data := [], room := none } h),
    ReadPacketTo_short c w h]
  exact ⟨rfl, rfl, rfl, rfl, rfl, rfl, rfl, rfl⟩

/-- The case of the spec: the stream closes after 2 of the 4 header bytes. -/
theorem C10_short_header_witness :
    IsConnError (ReadPacketTo (readerOf [9, 0] 0) (bufferOf [])).1 = true
      ∧ (ReadPacket (readerOf [9, 0] 0)).1 = none :=
  have h := C10_short_header (readerOf [9, 0] 0) (bufferOf []) (by decide)
  ⟨h.2.1, h.2.2.2.2.1⟩

/-! ## Properties of the round trip -/

/-- C1, as stated, fails for the empty message: WritePacket on the 4 reserved bytes alone
returns nil and puts the frame `[0, 0, 0, 0]` on the wire, and ReadPacket on exactly these
bytes returns a nil slice and the invalid-length error instead of the empty message. -/
theorem C1_round_trip_counterexample :
    (WritePacket (writerOf [] 0) ([0, 0, 0, 0] ++ [])).result = .ok none
      ∧ wire (WritePacket (writerOf [] 0) ([0, 0, 0, 0] ++ [])).conn = [0, 0, 0, 0]
      ∧ (ReadPacket (readerOf (wire (WritePacket (writerOf [] 0) ([0, 0, 0, 0] ++ [])).conn)
          0)).1 = none
      ∧ (ReadPacket (readerOf (wire (WritePacket (writerOf [] 0) ([0, 0, 0, 0] ++ [])).conn)
          0)).2.1 = Trace (some (Errorf "invalid payload length 0")) := by
  have hA := (WritePacket_spec (writerOf [] 0)
    { sent := [], script := [], closes := 0, closeErr := none } ([0, 0, 0, 0] ++ [])
    (by decide) rfl).1 rfl
  have hw : wire (WritePacket (writerOf [] 0) ([0, 0, 0, 0] ++ [])).conn = [0, 0, 0, 0] := by
    rw [hA.2, wire_afterWrites _ _ _ _ _ rfl]
    decide
  have hr := ReadPacket_zero (readerOf [0, 0, 0, 0] 0) 0 [] rfl
  rw [hw]
  exact ⟨hA.1, rfl, hr.1, hr.2⟩

/-- C1, amended: for every message `M` whose length is not a multiple of `MaxPayloadLen` (so
`M` is not empty), every 4 reserved bytes and every sequence `s` shared by both ends,
WritePacket on the reserved bytes followed by `M`, over a stream that accepts every write,
returns nil, and ReadPacket on exactly the bytes written returns `M` and no error. -/
theorem C1_round_trip (wc rc : Conn) (nc : NetConn) (hdr M : List Byte)
    (hhdr : hdr.length = 4) (hwc : wc.netConn = some nc) (hscript : nc.script = [])
    (hM : M.length % MaxPayloadLen ≠ 0) (hseq : rc.Sequence = wc.Sequence)
    (hloop : wire (WritePacket wc (hdr ++ M)).conn = wire wc ++ rc.br.pending) :
    (WritePacket wc (hdr ++ M)).result = .ok none
      ∧ (ReadPacket rc).1 = some M ∧ (ReadPacket rc).2.1 = none
      ∧ (ReadPacket rc).2.2.br.pending = [] := by
  have h := round_trip wc rc nc hdr M hhdr hwc hscript hM hseq hloop
  rw [h.2.2]
  exact ⟨h.1, rfl, rfl, rfl⟩

/-- A message of three bytes written from sequence 5 and read back. -/
theorem C1_round_trip_witness :
    (ReadPacket (readerOf (wireFrames [1, 2, 3] 5).flatten 5)).1 = some [1, 2, 3]
      ∧ (ReadPacket (readerOf (wireFrames [1, 2, 3] 5).flatten 5)).2.1 = none :=
  have h := C1_round_trip (writerOf [] 5) (readerOf (wireFrames [1, 2, 3] 5).flatten 5)
    { sent := [], script := [], closes := 0, closeErr := none } [9, 9, 9, 9] [1, 2, 3]
    rfl rfl rfl (by decide) rfl
    (wire_WritePacket (writerOf [] 5) { sent := [], script := [], closes := 0, closeErr := none }
      [9, 9, 9, 9, 1, 2, 3] (by decide) rfl rfl)
  ⟨h.2.1, h.2.2.1⟩

/-- C2, as stated, fails for a message of exactly `MaxPayloadLen` bytes: WritePacket returns
nil and has advanced the writer's `Sequence` from 0 to 2, one step per frame sent, while
`max(1, ceil(len(M) / MaxPayloadLen))` is 1. -/
theorem C2_frame_count_counterexample :
    (WritePacket (writerOf [] 0) (List.replicate 4 0 ++ List.replicate MaxPayloadLen 0)).result
        = .ok none
      ∧ (WritePacket (writerOf [] 0)
          (List.replicate 4 0 ++ List.replicate MaxPayloadLen 0)).conn.Sequence = 2
      ∧ seqAdd 0 (max 1 (((List.replicate MaxPayloadLen (0 : Byte)).length
          + MaxPayloadLen - 1) / MaxPayloadLen)) = 1 := by
  have h4 : 4 ≤ (List.replicate 4 (0 : Byte) ++ List.replicate MaxPayloadLen 0).length := by
    rw [List.length_append, List.length_replicate]
    exact Nat.le_add_right _ _
  have hdrop : (List.replicate 4 (0 : Byte) ++ List.replicate MaxPayloadLen 0).drop 4
      = List.replicate MaxPayloadLen 0 :=
    List.drop_left' (List.length_replicate _ _)
  have hA := (WritePacket_spec (writerOf [] 0)
    { sent := [], script := [], closes := 0, closeErr := none }
    (List.replicate 4 0 ++ List.replicate MaxPayloadLen 0) h4 rfl).1 rfl
  rw [hdrop] at hA
  refine ⟨hA.1, ?_, ?_⟩
  · rw [hA.2, wireFrames_length, List.length_replicate, Nat.div_self MaxPayloadLen_pos]
    rfl
  · rw [List.length_replicate]
    decide

/-- C2, amended: for every message `M` whose length is not a multiple of `MaxPayloadLen`,
after WritePacket has sent `M` over a stream that accepts every write and ReadPacket has read
it back, the `Sequence` of the writing Conn and the `Sequence` of the reading Conn have each
advanced by `max(1, ceil(len(M) / MaxPayloadLen))` modulo 256, which is
`len(M) / MaxPayloadLen + 1`, the number of frames sent. -/
theorem C2_frame_count (wc rc : Conn) (nc : NetConn) (hdr M : List Byte)
    (hhdr : hdr.length = 4) (hwc : wc.netConn = some nc) (hscript : nc.script = [])
    (hM : M.length % MaxPayloadLen ≠ 0) (hseq : rc.Sequence = wc.Sequence)
    (hloop : wire (WritePacket wc (hdr ++ M)).conn = wire wc ++ rc.br.pending) :
    (WritePacket wc (hdr ++ M)).conn.Sequence
        = seqAdd wc.Sequence (max 1 ((M.length + MaxPayloadLen - 1) / MaxPayloadLen))
      ∧ (ReadPacket rc).2.2.Sequence
        = seqAdd rc.Sequence (max 1 ((M.length + MaxPayloadLen - 1) / MaxPayloadLen))
      ∧ max 1 ((M.length + MaxPayloadLen - 1) / MaxPayloadLen)
        = (wireFrames M wc.Sequence).length := by
  have h := round_trip wc rc nc hdr M hhdr hwc hscript hM hseq hloop
  rw [h.2.2, h.2.1, ceil_div_eq M.length hM, wireFrames_length]
  exact ⟨rfl, rfl, rfl⟩

/-- A message of three bytes: one frame, both counters go from 255 to 0. -/
theorem C2_frame_count_witness :
    (WritePacket (writerOf [] 255) ([9, 9, 9, 9] ++ [1, 2, 3])).conn.Sequence = 0
      ∧ (ReadPacket (readerOf (wireFrames [1, 2, 3] 255).flatten 255)).2.2.Sequence = 0 :=
  have h := C2_frame_count (writerOf [] 255)
    (readerOf (wireFrames [1, 2, 3] 255).flatten 255)
    { sent := [], script := [], closes := 0, closeErr := none } [9, 9, 9, 9] [1, 2, 3]
    rfl rfl rfl (by decide) rfl
    (wire_WritePacket (writerOf [] 255)
      { sent := [], script := [], closes := 0, closeErr := none }
      [9, 9, 9, 9, 1, 2, 3] (by decide) rfl rfl)
  ⟨h.1, h.2.1⟩

theorem ReadPacketTo_zero_after_max (c : Conn) (w : Sink) (payload : List Byte) (q : Byte)
    (rest : List Byte) (hM : payload.length = MaxPayloadLen) (hroom : w.room = none)
    (hp : c.br.pending
      = frame 0xFF 0xFF 0xFF c.Sequence payload ++ (frame 0 0 0 q [] ++ rest)) :
    ReadPacketTo c w =
      (Trace (some (Errorf "invalid payload length 0")),
        { c with br := { c.br with pending := rest }, Sequence := incr c.Sequence },
        { w with data := w.data ++ payload }) := by
  rw [ReadPacketTo_more c w payload _ hp hM hroom,
    ReadPacketTo_zero _ _ 0 0 0 q rest rfl (headerLength_zero q [])]
  rfl

/-- C8, as stated, fails: on a stream that holds a correctly sequenced frame of length
`MaxPayloadLen` followed by a correctly sequenced header of length 0, ReadPacketTo does not
return nil; it returns the invalid-length error, traced. -/
theorem C8_zero_after_max_counterexample :
    (ReadPacketTo
        (readerOf (frame 0xFF 0xFF 0xFF 0 (List.replicate MaxPayloadLen 0)
          ++ frame 0 0 0 1 []) 0)
        (bufferOf [])).1
      = Trace (some (Errorf "invalid payload length 0")) := by
  rw [ReadPacketTo_zero_after_max
    (readerOf (frame 0xFF 0xFF 0xFF 0 (List.replicate MaxPayloadLen 0) ++ frame 0 0 0 1 []) 0)
    (bufferOf []) (List.replicate MaxPayloadLen 0) 1 [] (List.length_replicate _ _) rfl rfl]

/-- C8, amended: the reader rejects a frame with length field 0 wherever it stands.  After a
correctly sequenced frame of length `MaxPayloadLen` that arrived in full, a header of length 0
makes ReadPacketTo return the invalid-length error (classified false by IsConnError), with
the `MaxPayloadLen` payload bytes already in the sink and `Sequence` advanced by one; as a
message's sole frame it is rejected with the same error, sink and `Sequence` unchanged. -/
theorem C8_zero_length_rejected_everywhere (c : Conn) (w : Sink) (payload : List Byte)
    (q : Byte) (rest : List Byte)
    (hM : payload.length = MaxPayloadLen) (hroom : w.room = none) :
    (c.br.pending = frame 0xFF 0xFF 0xFF c.Sequence payload ++ (frame 0 0 0 q [] ++ rest) →
        ReadPacketTo c w =
            (Trace (some (Errorf "invalid payload length 0")),
              { c with br := { c.br with pending := rest }, Sequence := incr c.Sequence },
              { w with data := w.data ++ payload })
          ∧ IsConnError (ReadPacketTo c w).1 = false)
      ∧ (c.br.pending = frame 0 0 0 q [] ++ rest →
        ReadPacketTo c w =
            (some (Errorf "invalid payload length 0"),
              { c with br := { c.br with pending := rest } }, w)
          ∧ IsConnError (ReadPacketTo c w).1 = false) := by
  constructor
  · intro hp
    rw [ReadPacketTo_zero_after_max c w payload q rest hM hroom hp]
    exact ⟨rfl, rfl⟩
  · intro hp
    rw [ReadPacketTo_zero c w 0 0 0 q rest hp (headerLength_zero q [])]
    exact ⟨rfl, rfl⟩

/-- A zero-length header behind one frame of full length. -/
theorem C8_zero_length_rejected_everywhere_witness :
    IsConnError (ReadPacketTo
        (readerOf (frame 0xFF 0xFF 0xFF 3 (List.replicate MaxPayloadLen 0)
          ++ (frame 0 0 0 4 [] ++ [])) 3)
        (bufferOf [])).1 = false :=
  ((C8_zero_length_rejected_everywhere
    (readerOf (frame 0xFF 0xFF 0xFF 3 (List.replicate MaxPayloadLen 0)
      ++ (frame 0 0 0 4 [] ++ [])) 3)
    (bufferOf []) (List.replicate MaxPayloadLen 0) 4 [] (List.length_replicate _ _) rfl).1
    rfl).2

/-! ## Classification of the returned errors -/

theorem Cause_traceN_succ (n : Nat) (b : Error) : Cause (traceN (n + 1) b) = Cause (traceN n b) :=
  rfl

theorem IsConnError_traceN (n : Nat) (b : Error) :
    IsConnError (some (traceN n b)) = IsConnError (some b) := by
  induction n with
  | zero => rfl
  | succ n ih => rw [← ih]; rfl

theorem IsConnError_transport (b : Error) (h : TransportError b) (n : Nat) :
    IsConnError (some (traceN n b)) = true := by
  rw [IsConnError_traceN]
  cases h <;> rfl

theorem IsConnError_protocol (b : Error) (h : ProtocolError b) (n : Nat) :
    IsConnError (some (traceN n b)) = false := by
  rw [IsConnError_traceN]
  cases h <;> rfl

theorem Classified_transport (b : Error) (h : TransportError b) : Classified b :=
  ⟨0, b, rfl, Or.inl ⟨h, IsConnError_transport b h 0⟩⟩

theorem Classified_protocol (b : Error) (h : ProtocolError b) : Classified b :=
  ⟨0, b, rfl, Or.inr ⟨h, IsConnError_protocol b h 0⟩⟩

theorem Classified_Trace (e t : Error) (h : Classified e) (ht : Trace (some e) = some t) :
    Classified t := by
  obtain ⟨n, b, rfl, hb⟩ := h
  have ht' : t = traceN (n + 1) b := by
    simp only [Trace, Option.some.injEq] at ht
    rw [← ht]
    rfl
  refine ⟨n + 1, b, ht', ?_⟩
  rw [ht']
  rcases hb with ⟨hT, _⟩ | ⟨hP, _⟩
  · exact Or.inl ⟨hT, IsConnError_transport b hT (n + 1)⟩
  · exact Or.inr ⟨hP, IsConnError_protocol b hP (n + 1)⟩

theorem ReadPacketTo_classified :
    ∀ (c : Conn) (w : Sink) (e : Error), (ReadPacketTo c w).1 = some e → Classified e := by
  intro c w
  induction c, w using ReadPacketTo.induct with
  | case1 c w hd n err br1 hrd =>
    intro e he
    rw [ReadPacketTo_unfold, hrd] at he
    simp only [Option.some.injEq] at he
    rw [← he]
    exact Classified_transport _ (.headerRead err)
  | case2 c w header n br1 hrd length hl =>
    intro e he
    rw [ReadPacketTo_unfold, hrd] at he
    simp only [hl, if_true, Option.some.injEq] at he
    rw [← he]
    exact Classified_protocol _ (.invalidLength _)
  | case3 c w header n br1 hrd length hl sequence hs =>
    intro e he
    rw [ReadPacketTo_unfold, hrd] at he
    simp only [hl, hs, if_true, if_false, ne_eq, not_false_eq_true,
      Option.some.injEq] at he
    rw [← he]
    exact Classified_protocol _ (.sequenceMismatch _ _)
  | case4 c w header n br1 hrd length hl sequence hs c1 nw err w1 br2 hcp =>
    intro e he
    rw [ReadPacketTo_unfold, hrd] at he
    simp only [hl, hs, if_false, hcp, Option.some.injEq] at he
    rw [← he]
    exact Classified_transport _ (.bodyRead err)
  | case5 c w header n br1 hrd length hl sequence hs c1 nw w1 br2 hcp hne =>
    intro e he
    rw [ReadPacketTo_unfold, hrd] at he
    simp only [hl, hs, if_false, hcp, hne, if_true, ne_eq, not_false_eq_true,
      Option.some.injEq] at he
    rw [← he]
    exact Classified_transport _ (.bodyLength _)
  | case6 c w header n br1 hrd length hl sequence hs c1 nw w1 br2 hcp hne hlt =>
    intro e he
    rw [ReadPacketTo_unfold, hrd] at he
    simp only [hl, hs, if_false, hcp, hne, hlt, if_true] at he
    exact absurd he (by simp)
  | case7 c w header n br1 hrd length hl sequence hs c1 nw w1 br2 hcp hne hlt err c2 w2 hrec ih =>
    intro e he
    rw [ReadPacketTo_unfold, hrd] at he
    simp only [hl, hs, if_false, hcp, hne, hlt, hrec] at he
    exact Classified_Trace err e (ih err (by rw [hrec])) he
  | case8 c w header n br1 hrd length hl sequence hs c1 nw w1 br2 hcp hne hlt c2 w2 hrec ih =>
    intro e he
    rw [ReadPacketTo_unfold, hrd] at he
    simp only [hl, hs, if_false, hcp, hne, hlt, hrec] at he
    exact absurd he (by simp)

theorem loop_classified :
    ∀ (c : Conn) (done data : List Byte) (length : Int) (e : Error),
      (WritePacket.loop c done data length).result = .ok (some e) →
      ∃ n b, e = traceN n b ∧ TransportError b ∧ IsConnError (some e) = true := by
  intro c done data length
  induction c, done, data, length using WritePacket.loop.induct with
  | case1 c done data length hge f data1 hst =>
    intro e he
    rw [WritePacket.loop, if_pos hge, hst] at he
    exact absurd he (by simp)
  | case2 c done data length hge data1 hst bodyOffset hlt =>
    intro e he
    rw [WritePacket.loop, if_pos hge, hst] at he
    simp only [hlt, if_true] at he
    exact absurd he (by simp)
  | case3 c done data length hge data1 hst bodyOffset hlt f hw =>
    intro e he
    rw [WritePacket.loop, if_pos hge, hst] at he
    simp only [hlt, if_false, hw] at he
    exact absurd he (by simp)
  | case4 c done data length hge data1 hst bodyOffset hlt n err c1 hw =>
    intro e he
    rw [WritePacket.loop, if_pos hge, hst] at he
    simp only [hlt, if_false, hw, Except.ok.injEq, Option.some.injEq] at he
    rw [← he]
    exact ⟨0, _, rfl, .chunkWrite err, rfl⟩
  | case5 c done data length hge data1 hst bodyOffset hlt n c1 hw hne =>
    intro e he
    rw [WritePacket.loop, if_pos hge, hst] at he
    simp only [hlt, if_false, hw, hne, if_true, ne_eq, not_false_eq_true, Trace,
      Except.ok.injEq, Option.some.injEq] at he
    rw [← he]
    exact ⟨1, _, rfl, .shortWrite _, rfl⟩
  | case6 c done data length hge data1 hst bodyOffset hlt n c1 hw hne ih =>
    intro e he
    rw [WritePacket.loop, if_pos hge, hst] at he
    simp only [hlt, if_false, hw, hne] at he
    exact ih e he
  | case7 c done data length hge f data1 hst =>
    intro e he
    rw [WritePacket.loop, if_neg hge, hst] at he
    exact absurd he (by simp)
  | case8 c done data length hge data1 hst f hw =>
    intro e he
    rw [WritePacket.loop, if_neg hge, hst] at he
    simp only [hw] at he
    exact absurd he (by simp)
  | case9 c done data length hge data1 hst n err c1 hw =>
    intro e he
    rw [WritePacket.loop, if_neg hge, hst] at he
    simp only [hw, Except.ok.injEq, Option.some.injEq] at he
    rw [← he]
    exact ⟨0, _, rfl, .finalWrite err, rfl⟩
  | case10 c done data length hge data1 hst n c1 hw hne =>
    intro e he
    rw [WritePacket.loop, if_neg hge, hst] at he
    simp only [hw, hne, if_true, ne_eq, not_false_eq_true, Trace, Except.ok.injEq,
      Option.some.injEq] at he
    rw [← he]
    exact ⟨1, _, rfl, .shortWrite _, rfl⟩
  | case11 c done data length hge data1 hst n c1 hw hne =>
    intro e he
    rw [WritePacket.loop, if_neg hge, hst] at he
    simp only [hw, hne, if_false] at he
    exact absurd he (by simp)

theorem ReadPacket_error (c : Conn) (t : Error) (h : (ReadPacket c).2.1 = some t) :
    ∃ e, (ReadPacketTo c { data := [], room := none }).1 = some e ∧ Trace (some e) = some t := by
  unfold ReadPacket at h
  simp only at h
  split at h
  · next err c1 w1 heq => exact ⟨err, by rw [heq], h⟩
  · exact absurd h (by simp)

theorem classified_iff (e : Error) (h : Classified e) :
    ∃ n b, e = traceN n b ∧ (TransportError b ∨ ProtocolError b)
      ∧ (IsConnError (some e) = true ↔ TransportError b) := by
  obtain ⟨n, b, he, hb⟩ := h
  refine ⟨n, b, he, ?_⟩
  rcases hb with ⟨hT, ht⟩ | ⟨hP, hf⟩
  · exact ⟨Or.inl hT, fun _ => hT, fun _ => ht⟩
  · refine ⟨Or.inr hP, fun h => ?_, fun hT => ?_⟩
    · rw [hf] at h
      exact absurd h (by decide)
    · rw [he]
      exact IsConnError_transport b hT n

theorem ReadPacket_classified (c : Conn) (t : Error) (ht : (ReadPacket c).2.1 = some t) :
    Classified t := by
  obtain ⟨e, he, hte⟩ := ReadPacket_error c t ht
  exact Classified_Trace e t (ReadPacketTo_classified c _ e he) hte

theorem ReadPacket_traced (c : Conn) (t : Error) (ht : (ReadPacket c).2.1 = some t) :
    ∃ e, t = traceN 1 e := by
  obtain ⟨e, -, hte⟩ := ReadPacket_error c t ht
  simp only [Trace, Option.some.injEq] at hte
  exact ⟨e, hte.symm⟩

/-! ## Reset, close, and a body that stops short -/

/-- A header with a positive length field and the expected sequence byte is accepted: the
counter is incremented and the body is copied (conn.go:100-120). -/
theorem ReadPacketTo_accepted (c : Conn) (w : Sink) (b0 b1 b2 : Byte) (rest : List Byte)
    (h : c.br.pending = b0 :: b1 :: b2 :: c.Sequence :: rest)
    (hlen : 1 ≤ headerLength [b0, b1, b2]) :
    ReadPacketTo c w =
      match CopyN w { c.br with pending := rest } (headerLength [b0, b1, b2]) with
      | (_, some err, w1, br2) =>
        (some (.ConnError (Trace (some (.io err))) "Failed to read packet body"),
          { c with br := br2, Sequence := incr c.Sequence }, w1)
      | (n, none, w1, br2) =>
        if n ≠ headerLength [b0, b1, b2] then
          (some (.ConnError (Trace none)
              ("Packet body length mismatch. Expected "
                ++ toString (headerLength [b0, b1, b2]) ++ ", got " ++ toString n)),
            { c with br := br2, Sequence := incr c.Sequence }, w1)
        else if headerLength [b0, b1, b2] < MaxPayloadLen then
          (none, { c with br := br2, Sequence := incr c.Sequence }, w1)
        else
          match ReadPacketTo { c with br := br2, Sequence := incr c.Sequence } w1 with
          | (some err, c2, w2) => (Trace (some err), c2, w2)
          | (none, c2, w2) => (none, c2, w2) := by
  rw [ReadPacketTo_unfold, ReadFull_header c.br b0 b1 b2 c.Sequence rest h]
  have h1 : ¬ headerLength [b0, b1, b2] < 1 := by omega
  simp only [headerLength_three, h1, if_false, List.getD_cons_succ, List.getD_cons_zero, ne_eq,
    not_true_eq_false]

theorem ReadPacketTo_accepted_not_Errorf (c : Conn) (w : Sink) (b0 b1 b2 : Byte)
    (rest : List Byte) (h : c.br.pending = b0 :: b1 :: b2 :: c.Sequence :: rest)
    (hlen : 1 ≤ headerLength [b0, b1, b2]) (msg : String) :
    (ReadPacketTo c w).1 ≠ some (Errorf msg) := by
  rw [ReadPacketTo_accepted c w b0 b1 b2 rest h hlen]
  rcases CopyN w _ _ with ⟨n, _ | err, w1, br2⟩
  · simp only
    split
    · simp [Errorf]
    · split
      · simp
      · rcases ReadPacketTo _ w1 with ⟨_ | e, c2, w2⟩
        · simp
        · simp [Trace, Errorf]
  · simp [Errorf]

theorem wireFrames_first_sequence (P : List Byte) (s : Byte) :
    ((wireFrames P s).getD 0 []).getD 3 1 = s := by
  by_cases h : P.length < MaxPayloadLen
  · rw [wireFrames_lt P s h, finalFrame_zero]
    rfl
  · rw [wireFrames_ge P s (by omega), fullFrame_zero]
    rfl

/-- C12: for every Conn state ResetSequence sets `Sequence` to 0 and changes no other field.
After it, a WritePacket that returns nil has stamped the sequence byte 0 on the first frame it
wrote, and ReadPacketTo on a header with length field at least 1 and sequence byte `q` returns
the sequence-mismatch error (classified false, `Sequence` still 0, sink unchanged) for every
`q ≠ 0`, and for `q = 0` accepts the header: it returns no error of a header check, and when
the frame is shorter than `MaxPayloadLen` and arrives in full on a sink that accepts every
write it returns nil with `Sequence = 1`. -/
theorem C12_reset_semantics (c : Conn) (w : Sink) :
    (ResetSequence c = { c with Sequence := 0 }
        ∧ (ResetSequence c).Sequence = 0
        ∧ (ResetSequence c).netConn = c.netConn
        ∧ (ResetSequence c).br = c.br)
      ∧ (∀ (nc : NetConn) (data : List Byte), 4 ≤ data.length → c.netConn = some nc →
          (WritePacket (ResetSequence c) data).result = .ok none →
          (WritePacket (ResetSequence c) data).conn.netConn
              = some { nc with
                  sent := nc.sent ++ wireFrames (data.drop 4) 0,
                  script := nc.script.drop ((wireFrames (data.drop 4) 0).length) }
            ∧ ((wireFrames (data.drop 4) 0).getD 0 []).getD 3 1 = 0)
      ∧ (∀ (b0 b1 b2 q : Byte) (payload rest : List Byte),
          c.br.pending = b0 :: b1 :: b2 :: q :: (payload ++ rest) →
          1 ≤ headerLength [b0, b1, b2] →
          (q ≠ 0 →
            ReadPacketTo (ResetSequence c) w =
                (some (Errorf ("invalid sequence " ++ toString q.val ++ " != " ++ toString 0)),
                  { c with br := { c.br with pending := payload ++ rest }, Sequence := 0 }, w)
              ∧ IsConnError (ReadPacketTo (ResetSequence c) w).1 = false)
          ∧ (q = 0 →
            (∀ msg, (ReadPacketTo (ResetSequence c) w).1 ≠ some (Errorf msg))
              ∧ (headerLength [b0, b1, b2] = payload.length →
                  payload.length < MaxPayloadLen → w.room = none →
                  ReadPacketTo (ResetSequence c) w =
                    (none, { c with br := { c.br with pending := rest }, Sequence := 1 },
                      { w with data := w.data ++ payload })))) := by
  refine ⟨⟨rfl, rfl, rfl, rfl⟩, ?_, ?_⟩
  · intro nc data h4 hc hok
    rcases (WritePacket_spec (ResetSequence c) nc data h4 hc).2 with hA | ⟨j, o, hF⟩
    · refine ⟨?_, wireFrames_first_sequence _ 0⟩
      rw [hA.2]
      rfl
    · have h5 := hF.2.2.2.1
      rw [hok] at h5
      exact absurd h5 (by decide)
  · intro b0 b1 b2 q payload rest hp hlen
    constructor
    · intro hq
      rw [ReadPacketTo_mismatch (ResetSequence c) w b0 b1 b2 q (payload ++ rest) hp
        (by rw [headerLength_three]; exact hlen) hq]
      exact ⟨rfl, rfl⟩
    · intro hq
      subst hq
      refine ⟨fun msg => ReadPacketTo_accepted_not_Errorf (ResetSequence c) w b0 b1 b2
        (payload ++ rest) hp hlen msg, ?_⟩
      intro hl hM hroom
      rw [ReadPacketTo_last (ResetSequence c) w b0 b1 b2 payload rest hp
        (by rw [headerLength_three]; exact hl) (by omega) hM hroom]
      rfl

/-- After a reset from sequence 7, with nothing to read and no `net.Conn`, the counter is 0;
and a peer that still sends sequence 7 is refused. -/
theorem C12_reset_semantics_witness :
    (ResetSequence (readerOf [] 7)).Sequence = 0
      ∧ IsConnError (ReadPacketTo (ResetSequence (readerOf [1, 0, 0, 7, 42] 7))
          (bufferOf [])).1 = false :=
  ⟨(C12_reset_semantics (readerOf [] 7) (bufferOf [])).1.2.1,
    (((C12_reset_semantics (readerOf [1, 0, 0, 7, 42] 7) (bufferOf [])).2.2
      1 0 0 7 [42] [] rfl (by decide)).1 (by decide)).2⟩

/-- C13: Close sets `Sequence` to 0.  Without a `net.Conn` it returns nil and changes nothing
else; with one it calls the stream's `Close` exactly once and returns exactly its result.  A
second Close on a Conn without a `net.Conn` again returns nil with `Sequence = 0`. -/
theorem C13_close (c : Conn) :
    (Close c).2.Sequence = 0
      ∧ (c.netConn = none → Close c = (none, { c with Sequence := 0 }))
      ∧ (∀ nc, c.netConn = some nc →
          Close c = (nc.closeErr.map Error.io,
            { c with netConn := some { nc with closes := nc.closes + 1 }, Sequence := 0 }))
      ∧ (c.netConn = none →
          Close (Close c).2 = (none, { c with Sequence := 0 })
            ∧ (Close (Close c).2).2.Sequence = 0) := by
  refine ⟨?_, ?_, ?_, ?_⟩
  · unfold Close
    cases c.netConn <;> rfl
  · intro h
    simp [Close, h]
  · intro nc h
    simp [Close, h, NetConn.Close]
  · intro h
    simp [Close, h]

/-- A connection whose stream reports an error on `Close`. -/
theorem C13_close_witness :
    Close { netConn := some { sent := [], script := [], closes := 0, closeErr := some (.other 1) },
            br := { pending := [], ending := .EOF, readAhead := 0 }, Sequence := 9 }
      = (some (.io (.other 1)),
          { netConn := some { sent := [], script := [], closes := 1,
                              closeErr := some (.other 1) },
            br := { pending := [], ending := .EOF, readAhead := 0 }, Sequence := 0 }) :=
  (C13_close _).2.2.1
    { sent := [], script := [], closes := 0, closeErr := some (.other 1) } rfl

theorem CopyN_short (dst : Sink) (src : Reader) (n : Nat) (h : src.pending.length < n) :
    ∃ nw e br2, CopyN dst src n = (nw, some e, (dst.Write src.pending).2.2, br2)
      ∧ (dst.room = none → br2 = { src with pending := [] }) := by
  have htake : List.take n src.pending = src.pending := List.take_of_length_le (by omega)
  have hdrop : List.drop n src.pending = [] := List.drop_eq_nil_of_le (by omega)
  unfold CopyN
  simp only [htake, hdrop]
  unfold Sink.Write
  cases hr : dst.room with
  | none =>
    have hne : ¬ src.pending.length = n := by omega
    simp only [hne, if_false]
    exact ⟨_, _, _, rfl, fun _ => rfl⟩
  | some k =>
    by_cases hk : src.pending.length ≤ k
    · have hne : ¬ src.pending.length = n := by omega
      simp only [hk, if_true, hne, if_false]
      exact ⟨_, _, _, rfl, fun hn => absurd hn (by simp)⟩
    · have hne : ¬ k = n := by omega
      simp only [hk, if_false, hne]
      exact ⟨_, _, _, rfl, fun hn => absurd hn (by simp)⟩

/-- C14: when the header is valid and carries the expected sequence byte but the stream ends
or fails after `m < n` of the `n` payload bytes, ReadPacketTo returns an error that
IsConnError classifies as true and leaves `Sequence = (s+1) mod 256`; the sink has received
what it takes of the `m` delivered bytes, and with a sink that accepts every write these are
all `m` bytes and the stream is used up. -/
theorem C14_body_short (c : Conn) (w : Sink) (b0 b1 b2 : Byte) (body : List Byte)
    (hp : c.br.pending = b0 :: b1 :: b2 :: c.Sequence :: body)
    (hlen : 1 ≤ headerLength [b0, b1, b2])
    (hshort : body.length < headerLength [b0, b1, b2]) :
    (ReadPacketTo c w).1.isSome = true
      ∧ IsConnError (ReadPacketTo c w).1 = true
      ∧ (ReadPacketTo c w).2.1.Sequence = incr c.Sequence
      ∧ (incr c.Sequence).val = (c.Sequence.val + 1) % 256
      ∧ (ReadPacketTo c w).2.2 = (w.Write body).2.2
      ∧ (w.room = none →
          (ReadPacketTo c w).2.2 = { w with data := w.data ++ body }
            ∧ (ReadPacketTo c w).2.1.br.pending = []) := by
  obtain ⟨nw, e, br2, hcopy, hbr⟩ := CopyN_short w { c.br with pending := body } _ hshort
  rw [ReadPacketTo_accepted c w b0 b1 b2 body hp hlen, hcopy]
  refine ⟨rfl, rfl, rfl, ?_, rfl, ?_⟩
  · rw [incr_eq_seqAdd, seqAdd_val]
  · intro hroom
    rw [hbr hroom]
    refine ⟨?_, rfl⟩
    simp [Sink.Write, hroom]

/-- A header that announces 3 payload bytes on a stream that closes after 2 of them. -/
theorem C14_body_short_witness :
    IsConnError (ReadPacketTo (readerOf [3, 0, 0, 255, 7, 8] 255) (bufferOf [1])).1 = true
      ∧ (ReadPacketTo (readerOf [3, 0, 0, 255, 7, 8] 255) (bufferOf [1])).2.1.Sequence = 0
      ∧ (ReadPacketTo (readerOf [3, 0, 0, 255, 7, 8] 255) (bufferOf [1])).2.2
          = bufferOf [1, 7, 8] :=
  have h := C14_body_short (readerOf [3, 0, 0, 255, 7, 8] 255) (bufferOf [1]) 3 0 0 [7, 8] rfl
    (by decide) (by decide)
  ⟨h.2.1, h.2.2.1, (h.2.2.2.2.2 rfl).1⟩

/-! ## The header codec -/

theorem headerLength_three_eq (b0 b1 b2 : Byte) :
    headerLength [b0, b1, b2] = b0.val + 256 * b1.val + 65536 * b2.val := by
  rw [← headerLength_three b0 b1 b2 0 [], headerLength_eq]

/-- C15: for every integer `n` with `0 ≤ n ≤ 0xFFFFFF` the bytes `byte(n)`, `byte(n >> 8)`,
`byte(n >> 16)` that the writer stamps decode by the reader's formula to `n`; for every three
bytes the decoded length is at most `0xFFFFFF` and encodes back to the same three bytes; and
`0xFF 0xFF 0xFF` decodes to `MaxPayloadLen`. -/
theorem C15_header_codec :
    (∀ n : Int, 0 ≤ n → n ≤ 0xFFFFFF →
        (headerLength [byte n, byte (n >>> (8 : Nat)), byte (n >>> (16 : Nat))] : Int) = n)
      ∧ (∀ b0 b1 b2 : Byte,
          headerLength [b0, b1, b2] ≤ 0xFFFFFF
            ∧ byte (headerLength [b0, b1, b2] : Int) = b0
            ∧ byte ((headerLength [b0, b1, b2] : Int) >>> (8 : Nat)) = b1
            ∧ byte ((headerLength [b0, b1, b2] : Int) >>> (16 : Nat)) = b2)
      ∧ headerLength [0xFF, 0xFF, 0xFF] = MaxPayloadLen := by
  refine ⟨?_, ?_, by decide⟩
  · intro n h0 h1
    obtain ⟨m, rfl⟩ := Int.eq_ofNat_of_zero_le h0
    have hm : m ≤ 0xFFFFFF := by omega
    rw [byte_natCast, byte_shiftRight, byte_shiftRight, headerLength_three_eq]
    simp only [Fin.ofNat, Nat.shiftRight_eq_div_pow]
    omega
  · intro b0 b1 b2
    have h0 := b0.isLt
    have h1 := b1.isLt
    have h2 := b2.isLt
    rw [byte_natCast, byte_shiftRight, byte_shiftRight, headerLength_three_eq]
    refine ⟨by omega, ?_, ?_, ?_⟩ <;> apply Fin.ext <;>
      simp only [Fin.ofNat, Nat.shiftRight_eq_div_pow] <;> omega

/-- The length 0x010203 goes to the bytes 3, 2, 1 and comes back. -/
theorem C15_header_codec_witness :
    (headerLength [byte 0x010203, byte ((0x010203 : Int) >>> (8 : Nat)),
      byte ((0x010203 : Int) >>> (16 : Nat))] : Int) = 0x010203 :=
  C15_header_codec.1 0x010203 (by decide) (by decide)

/-! ## The restricted round trip -/

/-- C16: for every payload `P` with `len(P) ≥ 1` that is not a multiple of `MaxPayloadLen`,
every 4 reserved bytes and every sequence `s`: when WritePacket on the reserved bytes followed
by `P`, from sequence `s` over a stream that accepts every write, has put the bytes `W` on the
stream, ReadPacket from sequence `s` on `W` returns `(P, nil)`, consumes all of `W`, and both
Conns end with `Sequence = (s + len(P) / MaxPayloadLen + 1) mod 256`. -/
theorem C16_restricted_round_trip (wc rc : Conn) (nc : NetConn) (hdr P : List Byte)
    (hhdr : hdr.length = 4) (hwc : wc.netConn = some nc) (hscript : nc.script = [])
    (_h1 : 1 ≤ P.length) (hP : P.length % MaxPayloadLen ≠ 0)
    (hseq : rc.Sequence = wc.Sequence)
    (hloop : wire (WritePacket wc (hdr ++ P)).conn = wire wc ++ rc.br.pending) :
    ReadPacket rc =
        (some P, none,
          { rc with br := { rc.br with pending := [] },
                    Sequence := seqAdd rc.Sequence (P.length / MaxPayloadLen + 1) })
      ∧ (WritePacket wc (hdr ++ P)).conn.Sequence
          = seqAdd wc.Sequence (P.length / MaxPayloadLen + 1)
      ∧ (seqAdd wc.Sequence (P.length / MaxPayloadLen + 1)).val
          = (wc.Sequence.val + P.length / MaxPayloadLen + 1) % 256 := by
  have h := round_trip wc rc nc hdr P hhdr hwc hscript hP hseq hloop
  refine ⟨h.2.2, h.2.1, ?_⟩
  rw [seqAdd_val, Nat.add_assoc]

/-- A payload of two bytes written from sequence 200 and read back. -/
theorem C16_restricted_round_trip_witness :
    ReadPacket (readerOf (wireFrames [4, 5] 200).flatten 200)
      = (some [4, 5], none, readerOf [] 201) :=
  (C16_restricted_round_trip (writerOf [] 200) (readerOf (wireFrames [4, 5] 200).flatten 200)
    { sent := [], script := [], closes := 0, closeErr := none } [0, 0, 0, 0] [4, 5]
    rfl rfl rfl (by decide) (by decide) rfl
    (wire_WritePacket (writerOf [] 200)
      { sent := [], script := [], closes := 0, closeErr := none }
      [0, 0, 0, 0, 4, 5] (by decide) rfl rfl)).1

/-! ## Index and slice bounds of the writer -/

theorem stampHeader_fault (data : List Byte) (v0 v1 v2 v3 : Byte) (f : Fault)
    (data1 : List Byte) (h : stampHeader data v0 v1 v2 v3 = (some f, data1)) :
    data.length < 4 ∧ f = .indexOutOfRange := by
  unfold stampHeader at h
  split at h
  · simp only [Prod.mk.injEq, Option.some.injEq] at h
    exact ⟨by omega, h.1.symm⟩
  · split at h
    · simp only [Prod.mk.injEq, Option.some.injEq] at h
      exact ⟨by omega, h.1.symm⟩
    · split at h
      · simp only [Prod.mk.injEq, Option.some.injEq] at h
        exact ⟨by omega, h.1.symm⟩
      · split at h
        · simp only [Prod.mk.injEq, Option.some.injEq] at h
          exact ⟨by omega, h.1.symm⟩
        · simp at h

theorem stampHeader_length (data : List Byte) (v0 v1 v2 v3 : Byte) (r : Option Fault)
    (data1 : List Byte) (h : stampHeader data v0 v1 v2 v3 = (r, data1)) :
    data1.length = data.length := by
  unfold stampHeader at h
  repeat' split at h
  all_goals
    simp only [Prod.mk.injEq] at h
    rw [← h.2]
    try simp only [List.length_set]

theorem Conn_Write_fault (c : Conn) (p : List Byte) (f : Fault)
    (h : c.Write p = .error f) : f = .nilDereference := by
  unfold Conn.Write at h
  split at h
  · simp only [Except.error.injEq] at h
    exact h.symm
  · simp at h

theorem loop_in_bounds :
    ∀ (c : Conn) (done data : List Byte) (length : Int),
      length = (data.length : Int) - 4 → 4 ≤ data.length →
      (WritePacket.loop c done data length).result ≠ .error .indexOutOfRange
        ∧ (WritePacket.loop c done data length).result ≠ .error .sliceOutOfRange := by
  intro c done data length
  induction c, done, data, length using WritePacket.loop.induct with
  | case1 c done data length hge f data1 hst =>
    intro _ h4
    have := (stampHeader_fault _ _ _ _ _ _ _ hst).1
    omega
  | case2 c done data length hge data1 hst bodyOffset hlt =>
    intro hl h4
    have hlen := stampHeader_length _ _ _ _ _ _ _ hst
    have hb : data1.length < 4 + MaxPayloadLen := hlt
    omega
  | case3 c done data length hge data1 hst bodyOffset hlt f hw =>
    intro _ _
    rw [WritePacket.loop, if_pos hge, hst]
    simp [hlt, hw, Conn_Write_fault _ _ _ hw]
  | case4 c done data length hge data1 hst bodyOffset hlt n err c1 hw =>
    intro _ _
    rw [WritePacket.loop, if_pos hge, hst]
    simp only [hlt, if_false, hw]
    exact ⟨by simp, by simp⟩
  | case5 c done data length hge data1 hst bodyOffset hlt n c1 hw hne =>
    intro _ _
    rw [WritePacket.loop, if_pos hge, hst]
    simp only [hlt, if_false, hw, hne, if_true, ne_eq, not_false_eq_true]
    exact ⟨by simp, by simp⟩
  | case6 c done data length hge data1 hst bodyOffset hlt n c1 hw hne ih =>
    intro hl h4
    have hlen := stampHeader_length _ _ _ _ _ _ _ hst
    have hb : ¬ data1.length < 4 + MaxPayloadLen := hlt
    rw [WritePacket.loop, if_pos hge, hst]
    simp only [hlt, if_false, hw, hne]
    apply ih
    · rw [List.length_drop]
      omega
    · rw [List.length_drop]
      omega
  | case7 c done data length hge f data1 hst =>
    intro _ h4
    have := (stampHeader_fault _ _ _ _ _ _ _ hst).1
    omega
  | case8 c done data length hge data1 hst f hw =>
    intro _ _
    rw [WritePacket.loop, if_neg hge, hst]
    simp [hw, Conn_Write_fault _ _ _ hw]
  | case9 c done data length hge data1 hst n err c1 hw =>
    intro _ _
    rw [WritePacket.loop, if_neg hge, hst]
    simp only [hw]
    exact ⟨by simp, by simp⟩
  | case10 c done data length hge data1 hst n c1 hw hne =>
    intro _ _
    rw [WritePacket.loop, if_neg hge, hst]
    simp only [hw, hne, if_true, ne_eq, not_false_eq_true]
    exact ⟨by simp, by simp⟩
  | case11 c done data length hge data1 hst n c1 hw hne =>
    intro _ _
    rw [WritePacket.loop, if_neg hge, hst]
    simp only [hw, hne, if_false]
    exact ⟨by simp, by simp⟩

theorem stampHeader_short (data : List Byte) (v0 v1 v2 v3 : Byte) (h : data.length < 4) :
    (stampHeader data v0 v1 v2 v3).1 = some .indexOutOfRange := by
  unfold stampHeader
  repeat' split
  all_goals rfl

/-- C18: for a buffer of at least 4 bytes WritePacket never panics on an index or a slice
bound (with `len(data) = length + 4` kept by the loop); for a buffer of fewer than 4 bytes it
panics with an index out of range at the header stamp, before anything is written to the
stream and with `Sequence` unchanged. -/
theorem C18_writer_bounds (c : Conn) (data : List Byte) :
    (4 ≤ data.length →
        (WritePacket c data).result ≠ .error .indexOutOfRange
          ∧ (WritePacket c data).result ≠ .error .sliceOutOfRange)
      ∧ (data.length < 4 →
        (WritePacket c data).result = .error .indexOutOfRange
          ∧ (WritePacket c data).conn = c) := by
  constructor
  · intro h4
    exact loop_in_bounds c [] data _ rfl h4
  · intro hlt
    have hge : ¬ ((data.length : Int) - 4 ≥ (MaxPayloadLen : Int)) := by
      have := MaxPayloadLen_pos
      omega
    have hs := stampHeader_short data (byte ((data.length : Int) - 4))
      (byte (((data.length : Int) - 4) >>> (8 : Nat)))
      (byte (((data.length : Int) - 4) >>> (16 : Nat))) c.Sequence hlt
    unfold WritePacket
    rw [WritePacket.loop, if_neg hge]
    rcases hst : stampHeader data (byte ((data.length : Int) - 4))
      (byte (((data.length : Int) - 4) >>> (8 : Nat)))
      (byte (((data.length : Int) - 4) >>> (16 : Nat))) c.Sequence with ⟨r, d⟩
    rw [hst] at hs
    simp only at hs
    subst hs
    exact ⟨rfl, rfl⟩

/-- A buffer of two bytes. -/
theorem C18_writer_bounds_witness :
    (WritePacket (writerOf [] 3) [1, 2]).result = .error .indexOutOfRange
      ∧ (WritePacket (writerOf [] 3) [1, 2]).conn = writerOf [] 3 :=
  (C18_writer_bounds (writerOf [] 3) [1, 2]).2 (by decide)

/-! ## Termination -/

theorem ReadFull_ok_inv (r : Reader) (header : List Byte) (n : Nat) (br1 : Reader)
    (h : ReadFull r [0, 0, 0, 0] = (header, n, none, br1)) :
    4 ≤ r.pending.length ∧ br1.pending.length = r.pending.length - 4 := by
  unfold ReadFull at h
  split at h
  · next hle =>
    simp only [Prod.mk.injEq, List.length_cons, List.length_nil] at h hle
    refine ⟨by omega, ?_⟩
    rw [← h.2.2.2]
    simp only [List.length_drop, List.length_cons, List.length_nil]
  · simp at h

theorem Sink_Write_le (w : Sink) (p : List Byte) : (w.Write p).1 ≤ p.length := by
  unfold Sink.Write
  split
  · exact Nat.le_refl _
  · split
    · exact Nat.le_refl _
    · simp only
      omega

theorem CopyN_ok_inv (dst : Sink) (src : Reader) (n n1 : Nat) (w1 : Sink) (br2 : Reader)
    (h : CopyN dst src n = (n1, none, w1, br2)) :
    n ≤ src.pending.length ∧ br2.pending.length = src.pending.length - n := by
  have hle := Sink_Write_le dst (List.take n src.pending)
  rw [List.length_take] at hle
  unfold CopyN at h
  simp only at h
  split at h
  · next heq =>
    simp only [Prod.mk.injEq] at h
    refine ⟨by omega, ?_⟩
    rw [← h.2.2.2]
    simp only [List.length_drop]
  · split at h <;> simp at h

theorem ReadPacketTo_within (calls : Nat) :
    ∀ (c : Conn) (w : Sink), c.br.pending.length / (4 + MaxPayloadLen) + 1 ≤ calls →
      ReadPacketTo.within calls c w = some (ReadPacketTo c w) := by
  induction calls with
  | zero =>
    intro c w h
    exact absurd h (Nat.not_succ_le_zero _)
  | succ calls ih =>
    intro c w h
    rw [ReadPacketTo_unfold]
    simp only [ReadPacketTo.within]
    rcases hrd : ReadFull c.br [0, 0, 0, 0] with ⟨header, n, _ | err, br1⟩
    · simp only
      split
      · rfl
      · split
        · rfl
        · rcases hcp : CopyN w br1 (headerLength header) with ⟨n1, _ | err, w1, br2⟩
          · simp only
            split
            · rfl
            · split
              · rfl
              · next hn hM =>
                have h1 := ReadFull_ok_inv _ _ _ _ hrd
                have h2 := CopyN_ok_inv _ _ _ _ _ _ hcp
                have hb : br2.pending.length / (4 + MaxPayloadLen) + 1 ≤ calls := by
                  rw [MaxPayloadLen_eq] at hM h ⊢
                  omega
                rw [ih { c with br := br2, Sequence := incr c.Sequence } w1 hb]
                rcases ReadPacketTo { c with br := br2, Sequence := incr c.Sequence } w1
                  with ⟨_ | e, c2, w2⟩ <;> rfl
          · rfl
    · rfl

theorem loopWithin_eq :
    ∀ (c : Conn) (done data : List Byte) (length : Int) (turns : Nat),
      length.toNat / MaxPayloadLen ≤ turns →
      WritePacket.loopWithin turns c done data length
        = some (WritePacket.loop c done data length) := by
  intro c done data length
  have hturn : ∀ (length : Int) (turns : Nat), length ≥ (MaxPayloadLen : Int) →
      length.toNat / MaxPayloadLen ≤ turns →
      ∃ t, turns = t + 1 ∧ (length - (MaxPayloadLen : Int)).toNat / MaxPayloadLen ≤ t := by
    intro length turns hge h
    rw [MaxPayloadLen_eq] at hge h ⊢
    exact ⟨turns - 1, by omega, by omega⟩
  induction c, done, data, length using WritePacket.loop.induct with
  | case1 c done data length hge f data1 hst =>
    intro turns h
    obtain ⟨t, rfl, -⟩ := hturn length turns hge h
    rw [WritePacket.loop, WritePacket.loopWithin.eq_def, if_pos hge, if_pos hge]
    simp only [hst]
  | case2 c done data length hge data1 hst bodyOffset hlt =>
    intro turns h
    obtain ⟨t, rfl, -⟩ := hturn length turns hge h
    rw [WritePacket.loop, WritePacket.loopWithin.eq_def, if_pos hge, if_pos hge]
    simp only [hst, hlt, if_true]
  | case3 c done data length hge data1 hst bodyOffset hlt f hw =>
    intro turns h
    obtain ⟨t, rfl, -⟩ := hturn length turns hge h
    rw [WritePacket.loop, WritePacket.loopWithin.eq_def, if_pos hge, if_pos hge]
    simp only [hst, hlt, if_false, hw]
  | case4 c done data length hge data1 hst bodyOffset hlt n err c1 hw =>
    intro turns h
    obtain ⟨t, rfl, -⟩ := hturn length turns hge h
    rw [WritePacket.loop, WritePacket.loopWithin.eq_def, if_pos hge, if_pos hge]
    simp only [hst, hlt, if_false, hw]
  | case5 c done data length hge data1 hst bodyOffset hlt n c1 hw hne =>
    intro turns h
    obtain ⟨t, rfl, -⟩ := hturn length turns hge h
    rw [WritePacket.loop, WritePacket.loopWithin.eq_def, if_pos hge, if_pos hge]
    simp only [hst, hlt, if_false, hw, hne, if_true, ne_eq, not_false_eq_true]
  | case6 c done data length hge data1 hst bodyOffset hlt n c1 hw hne ih =>
    intro turns h
    obtain ⟨t, rfl, ht⟩ := hturn length turns hge h
    rw [WritePacket.loop, WritePacket.loopWithin.eq_def, if_pos hge, if_pos hge]
    simp only [hst, hlt, if_false, hw, hne]
    exact ih t ht
  | case7 c done data length hge f data1 hst =>
    intro turns _
    rw [WritePacket.loop, WritePacket.loopWithin.eq_def, if_neg hge, if_neg hge]
    simp only [hst]
  | case8 c done data length hge data1 hst f hw =>
    intro turns _
    rw [WritePacket.loop, WritePacket.loopWithin.eq_def, if_neg hge, if_neg hge]
    simp only [hst, hw]
  | case9 c done data length hge data1 hst n err c1 hw =>
    intro turns _
    rw [WritePacket.loop, WritePacket.loopWithin.eq_def, if_neg hge, if_neg hge]
    simp only [hst, hw]
  | case10 c done data length hge data1 hst n c1 hw hne =>
    intro turns _
    rw [WritePacket.loop, WritePacket.loopWithin.eq_def, if_neg hge, if_neg hge]
    simp only [hst, hw, hne, if_true, ne_eq, not_false_eq_true]
  | case11 c done data length hge data1 hst n c1 hw hne =>
    intro turns _
    rw [WritePacket.loop, WritePacket.loopWithin.eq_def, if_neg hge, if_neg hge]
    simp only [hst, hw, hne, if_false]

theorem loopWithin_chunk_accepts (turns : Nat) (c : Conn) (nc : NetConn) (done : List Byte)
    (h0 h1 h2 h3 : Byte) (P : List Byte) (hc : c.netConn = some nc)
    (hge : MaxPayloadLen ≤ P.length)
    (hacc : nc.accepts (fullFrame P c.Sequence 0) = true) :
    WritePacket.loopWithin (turns + 1) c done (h0 :: h1 :: h2 :: h3 :: P) (P.length : Int) =
      WritePacket.loopWithin turns
        { c with
          netConn := some { nc with sent := nc.sent ++ [fullFrame P c.Sequence 0],
                                    script := nc.script.tail },
          Sequence := incr c.Sequence }
        (done ++ (0xff :: 0xff :: 0xff :: c.Sequence :: P).take MaxPayloadLen)
        ((0xff :: 0xff :: 0xff :: c.Sequence :: P).drop MaxPayloadLen)
        ((P.length : Int) - MaxPayloadLen) := by
  have hge1 : (P.length : Int) ≥ (MaxPayloadLen : Int) := by omega
  have hlen : ¬ ((0xff :: 0xff :: 0xff :: c.Sequence :: P).length < 4 + MaxPayloadLen) := by
    simp only [List.length_cons]
    omega
  rw [WritePacket.loopWithin.eq_def, if_pos hge1]
  simp only [stampHeader_cons, hlen, if_false, take_header, Conn.Write, hc, ← fullFrame_zero,
    Write_accepts nc _ hacc, fullFrame_zero_length P c.Sequence hge, ne_eq, not_true_eq_false]

theorem loopWithin_too_few (turns : Nat) :
    ∀ (c : Conn) (nc : NetConn) (done : List Byte) (h0 h1 h2 h3 : Byte) (P : List Byte),
      c.netConn = some nc → nc.script = [] → turns < P.length / MaxPayloadLen →
      WritePacket.loopWithin turns c done (h0 :: h1 :: h2 :: h3 :: P) (P.length : Int)
        = none := by
  induction turns with
  | zero =>
    intro c nc done h0 h1 h2 h3 P hc hs hk
    have hge : MaxPayloadLen ≤ P.length := by
      by_contra hlt
      rw [Nat.div_eq_of_lt (by omega)] at hk
      omega
    have hge1 : (P.length : Int) ≥ (MaxPayloadLen : Int) := by omega
    rw [WritePacket.loopWithin.eq_def, if_pos hge1]
  | succ turns ih =>
    intro c nc done h0 h1 h2 h3 P hc hs hk
    have hge : MaxPayloadLen ≤ P.length := by
      by_contra hlt
      rw [Nat.div_eq_of_lt (by omega)] at hk
      omega
    have hacc : nc.accepts (fullFrame P c.Sequence 0) = true := by
      simp [NetConn.accepts, hs]
    rw [loopWithin_chunk_accepts turns c nc done h0 h1 h2 h3 P hc hge hacc]
    have h4 : 4 ≤ ((0xff :: 0xff :: 0xff :: c.Sequence :: P).drop MaxPayloadLen).length := by
      simp only [List.length_drop, List.length_cons]
      omega
    obtain ⟨a, b, c', d, hdata⟩ := exists_header _ h4
    rw [drop_header] at hdata
    have hlen : (P.length : Int) - (MaxPayloadLen : Int)
        = ((P.drop MaxPayloadLen).length : Int) := by
      rw [List.length_drop]
      omega
    have hk' : turns < (P.drop MaxPayloadLen).length / MaxPayloadLen := by
      rw [Nat.div_eq_sub_div MaxPayloadLen_pos hge] at hk
      rw [List.length_drop]
      omega
    rw [hdata, hlen]
    exact ih _ { nc with sent := nc.sent ++ [fullFrame P c.Sequence 0], script := nc.script.tail }
      _ a b c' d (P.drop MaxPayloadLen) rfl (by simp [hs]) hk'

/-- C19: ReadPacketTo returns after at most `len(stream) / (4 + MaxPayloadLen)` recursive
calls, whatever the stream and the state (so a single call suffices unless the stream holds
at least `4 + MaxPayloadLen` bytes), and for a buffer of at least 4 bytes sent over a stream
that accepts every write the loop of WritePacket takes exactly
`(len(data) - 4) / MaxPayloadLen` turns: that many reach the return and fewer do not. -/
theorem C19_termination (c : Conn) (w : Sink) (wc : Conn) (nc : NetConn) (data : List Byte)
    (h4 : 4 ≤ data.length) (hwc : wc.netConn = some nc) (hs : nc.script = []) :
    ReadPacketTo.within (c.br.pending.length / (4 + MaxPayloadLen) + 1) c w
        = some (ReadPacketTo c w)
      ∧ (c.br.pending.length < 4 + MaxPayloadLen →
          ReadPacketTo.within 1 c w = some (ReadPacketTo c w))
      ∧ WritePacket.loopWithin ((data.length - 4) / MaxPayloadLen) wc [] data
          ((data.length : Int) - 4) = some (WritePacket wc data)
      ∧ (∀ turns, turns < (data.length - 4) / MaxPayloadLen →
          WritePacket.loopWithin turns wc [] data ((data.length : Int) - 4) = none) := by
  refine ⟨ReadPacketTo_within _ c w (Nat.le_refl _), ?_, ?_, ?_⟩
  · intro hlt
    exact ReadPacketTo_within 1 c w (by rw [Nat.div_eq_of_lt hlt])
  · apply loopWithin_eq
    have : ((data.length : Int) - 4).toNat = data.length - 4 := by omega
    rw [this]
  · intro turns ht
    obtain ⟨h0, h1, h2, h3, hd⟩ := exists_header data h4
    have hlen : (data.length : Int) - 4 = ((data.drop 4).length : Int) := by
      rw [List.length_drop]
      omega
    have h := loopWithin_too_few turns wc nc [] h0 h1 h2 h3 (data.drop 4) hwc hs
      (by rw [List.length_drop]; exact ht)
    rw [← hd, ← hlen] at h
    exact h

/-- A stream of 8 bytes is read in one call, and a payload of 3 bytes is sent without a turn
of the loop. -/
theorem C19_termination_witness :
    ReadPacketTo.within 1 (readerOf [3, 0, 0, 5, 1, 2, 3, 7] 5) (bufferOf [])
        = some (ReadPacketTo (readerOf [3, 0, 0, 5, 1, 2, 3, 7] 5) (bufferOf []))
      ∧ WritePacket.loopWithin 0 (writerOf [] 5) [] [9, 9, 9, 9, 1, 2, 3] 3
        = some (WritePacket (writerOf [] 5) [9, 9, 9, 9, 1, 2, 3]) :=
  have h := C19_termination (readerOf [3, 0, 0, 5, 1, 2, 3, 7] 5) (bufferOf []) (writerOf [] 5)
    { sent := [], script := [], closes := 0, closeErr := none } [9, 9, 9, 9, 1, 2, 3]
    (by decide) rfl rfl
  ⟨h.2.1 (by decide), h.2.2.1⟩

/-! ## The caller's buffer after WritePacket -/

theorem getElem?_header (a b c d a1 b1 c1 d1 : Byte) (P : List Byte) (p : Nat) (hp : 4 ≤ p) :
    (a :: b :: c :: d :: P)[p]? = (a1 :: b1 :: c1 :: d1 :: P)[p]? := by
  obtain ⟨q, rfl⟩ : ∃ q, p = q + 1 + 1 + 1 + 1 := ⟨p - 4, by omega⟩
  simp only [List.getElem?_cons_succ]

theorem isConnFailure_ok_none (r : Except Fault (Option Error)) (h : r = .ok none) :
    isConnFailure r ≠ true := by
  rw [h]
  decide

theorem four_le_MaxPayloadLen : 4 ≤ MaxPayloadLen := by decide

theorem loop_buffer (k : Nat) :
    ∀ (c : Conn) (nc : NetConn) (done : List Byte) (h0 h1 h2 h3 : Byte) (P : List Byte),
      c.netConn = some nc → P.length / MaxPayloadLen = k →
      (WritePacket.loop c done (h0 :: h1 :: h2 :: h3 :: P) (P.length : Int)).result
        = .ok none →
      ∃ B : List Byte,
        (WritePacket.loop c done (h0 :: h1 :: h2 :: h3 :: P) (P.length : Int)).buffer
            = done ++ B
          ∧ B.length = P.length + 4
          ∧ (∀ p, B[p]? ≠ (h0 :: h1 :: h2 :: h3 :: P)[p]? →
              ∃ i j, i ≤ k ∧ j ≤ 3 ∧ p = i * MaxPayloadLen + j)
          ∧ (∀ i, i ≤ k →
              (B.drop (i * MaxPayloadLen)).take 4
                = ((wireFrames P c.Sequence).getD i []).take 4)
          ∧ (k = 0 → B.drop 4 = P) := by
  induction k with
  | zero =>
    intro c nc done h0 h1 h2 h3 P hc hk hok
    have hlt : P.length < MaxPayloadLen := (Nat.div_eq_zero_iff MaxPayloadLen_pos).1 hk
    cases hacc : nc.accepts (finalFrame P c.Sequence 0) with
    | false =>
      obtain ⟨o, rest, hs, hrej, -⟩ := Write_rejects nc _ hacc
      exact absurd (loop_final_rejects c nc done h0 h1 h2 h3 P o rest hc hlt hs hrej).1
        (isConnFailure_ok_none _ hok)
    | true =>
      rw [loop_final_accepts c nc done h0 h1 h2 h3 P hc hlt hacc, wireFrames_lt P c.Sequence hlt]
      refine ⟨finalFrame P c.Sequence 0, rfl, ?_, ?_, ?_, ?_⟩
      · rw [finalFrame_zero]
        rfl
      · intro p hne
        by_cases hp : p < 4
        · exact ⟨0, p, Nat.le_refl _, by omega, by rw [Nat.zero_mul, Nat.zero_add]⟩
        · rw [finalFrame_zero] at hne
          exact absurd (getElem?_header _ _ _ _ h0 h1 h2 h3 P p (by omega)) hne
      · intro i hi
        have hi0 : i = 0 := by omega
        rw [hi0, Nat.zero_mul]
        rfl
      · intro _
        rw [finalFrame_zero]
        rfl
  | succ k ih =>
    intro c nc done h0 h1 h2 h3 P hc hk hok
    have hge : MaxPayloadLen ≤ P.length := by
      by_contra hlt
      rw [Nat.div_eq_of_lt (by omega)] at hk
      omega
    have h4M := four_le_MaxPayloadLen
    cases hacc : nc.accepts (fullFrame P c.Sequence 0) with
    | false =>
      obtain ⟨o, rest, hs, hrej, -⟩ := Write_rejects nc _ hacc
      exact absurd (loop_chunk_rejects c nc done h0 h1 h2 h3 P o rest hc hge hs hrej).1
        (isConnFailure_ok_none _ hok)
    | true =>
      rw [loop_chunk_accepts c nc done h0 h1 h2 h3 P hc hge hacc] at hok ⊢
      have hD4 : 4 ≤ ((0xff :: 0xff :: 0xff :: c.Sequence :: P).drop MaxPayloadLen).length := by
        simp only [List.length_drop, List.length_cons]
        omega
      obtain ⟨a, b, c', d, hdata⟩ := exists_header _ hD4
      rw [drop_header] at hdata
      have hlen : (P.length : Int) - (MaxPayloadLen : Int)
          = ((P.drop MaxPayloadLen).length : Int) := by
        rw [List.length_drop]
        omega
      have hk' : (P.drop MaxPayloadLen).length / MaxPayloadLen = k := by
        rw [Nat.div_eq_sub_div MaxPayloadLen_pos hge] at hk
        rw [List.length_drop]
        omega
      have htl : ((0xff :: 0xff :: 0xff :: c.Sequence :: P).take MaxPayloadLen).length
          = MaxPayloadLen := by
        rw [List.length_take]
        simp only [List.length_cons]
        omega
      rw [hlen] at hok ⊢
      have hdata' := hdata
      rw [hdata] at hok ⊢
      obtain ⟨B1, hB, hBlen, hframe, hhead, -⟩ := ih
        { c with
          netConn := some { nc with sent := nc.sent ++ [fullFrame P c.Sequence 0],
                                    script := nc.script.tail },
          Sequence := incr c.Sequence }
        { nc with sent := nc.sent ++ [fullFrame P c.Sequence 0], script := nc.script.tail }
        (done ++ (0xff :: 0xff :: 0xff :: c.Sequence :: P).take MaxPayloadLen)
        a b c' d (P.drop MaxPayloadLen) rfl hk' hok
      refine ⟨(0xff :: 0xff :: 0xff :: c.Sequence :: P).take MaxPayloadLen ++ B1, ?_, ?_, ?_, ?_,
        ?_⟩
      · rw [hB, List.append_assoc]
      · rw [List.length_append, htl, hBlen, List.length_drop]
        omega
      · intro p hne
        by_cases hp : p < MaxPayloadLen
        · rw [List.getElem?_append_left (by rw [htl]; exact hp),
            List.getElem?_take_of_lt hp] at hne
          by_cases hp4 : p < 4
          · exact ⟨0, p, Nat.zero_le _, by omega, by rw [Nat.zero_mul, Nat.zero_add]⟩
          · exact absurd (getElem?_header _ _ _ _ h0 h1 h2 h3 P p (by omega)) hne
        · rw [List.getElem?_append_right (by rw [htl]; omega), htl] at hne
          have hd : (h0 :: h1 :: h2 :: h3 :: P)[p]?
              = (a :: b :: c' :: d :: List.drop MaxPayloadLen P)[p - MaxPayloadLen]? := by
            have hidx : MaxPayloadLen + (p - MaxPayloadLen) = p := by omega
            rw [← hdata', List.getElem?_drop, hidx]
            exact getElem?_header h0 h1 h2 h3 0xff 0xff 0xff c.Sequence P p (by omega)
          rw [hd] at hne
          obtain ⟨i, j, hi, hj, hpij⟩ := hframe _ hne
          refine ⟨i + 1, j, by omega, hj, ?_⟩
          rw [Nat.add_mul, Nat.one_mul]
          omega
      · intro i hi
        rw [wireFrames_ge P c.Sequence hge]
        cases i with
        | zero =>
          rw [Nat.zero_mul, List.drop_zero, List.take_append_of_le_length (by rw [htl]; omega),
            List.take_take, List.getD_cons_zero, fullFrame_zero]
          have hmin : min 4 MaxPayloadLen = 4 := by decide
          rw [hmin]
          rfl
        | succ i =>
          have hmul : (i + 1) * MaxPayloadLen
              = ((0xff :: 0xff :: 0xff :: c.Sequence :: P).take MaxPayloadLen).length
                + i * MaxPayloadLen := by
            rw [htl, Nat.add_mul, Nat.one_mul, Nat.add_comm]
          rw [hmul, List.drop_append, List.getD_cons_succ]
          exact hhead i (by omega)
      · intro h
        omega

theorem WritePacket_buffer (c : Conn) (nc : NetConn) (data : List Byte)
    (h4 : 4 ≤ data.length) (hc : c.netConn = some nc)
    (hok : (WritePacket c data).result = .ok none) :
    (WritePacket c data).buffer.length = data.length
      ∧ (∀ p, (WritePacket c data).buffer[p]? ≠ data[p]? →
          ∃ i j, i ≤ (data.length - 4) / MaxPayloadLen ∧ j ≤ 3 ∧ p = i * MaxPayloadLen + j)
      ∧ (∀ i, i ≤ (data.length - 4) / MaxPayloadLen →
          ((WritePacket c data).buffer.drop (i * MaxPayloadLen)).take 4
            = ((wireFrames (data.drop 4) c.Sequence).getD i []).take 4)
      ∧ (data.length - 4 < MaxPayloadLen → (WritePacket c data).buffer.drop 4 = data.drop 4) := by
  obtain ⟨h0, h1, h2, h3, hd⟩ := exists_header data h4
  have hlen : (data.length : Int) - 4 = ((data.drop 4).length : Int) := by
    rw [List.length_drop]
    omega
  have hl4 : (data.drop 4).length = data.length - 4 := List.length_drop _ _
  unfold WritePacket at hok ⊢
  rw [hlen] at hok ⊢
  have hd' : WritePacket.loop c [] data ((data.drop 4).length : Int)
      = WritePacket.loop c [] (h0 :: h1 :: h2 :: h3 :: data.drop 4)
          ((data.drop 4).length : Int) := by
    rw [← hd]
  rw [hd'] at hok ⊢
  obtain ⟨B, hB, hBlen, hframe, hhead, hzero⟩ :=
    loop_buffer ((data.drop 4).length / MaxPayloadLen) c nc [] h0 h1 h2 h3 (data.drop 4) hc rfl
      hok
  rw [hB, List.nil_append]
  rw [hl4] at hframe hhead hzero hBlen
  refine ⟨by omega, ?_, hhead, ?_⟩
  · intro p hne
    rw [hd] at hne
    exact hframe p hne
  · intro hlt
    exact hzero (Nat.div_eq_of_lt hlt)

theorem drop_cons_four (a b c d : Byte) (P : List Byte) (n : Nat) (h : 4 ≤ n) :
    (a :: b :: c :: d :: P).drop n = P.drop (n - 4) := by
  obtain ⟨q, rfl⟩ : ∃ q, n = q + 1 + 1 + 1 + 1 := ⟨n - 4, by omega⟩
  simp only [List.drop_succ_cons]
  rfl

theorem take_cons_four (a b c d : Byte) (P : List Byte) (n : Nat) (h : 4 ≤ n) :
    (a :: b :: c :: d :: P).take n = a :: b :: c :: d :: P.take (n - 4) := by
  obtain ⟨q, rfl⟩ : ∃ q, n = q + 1 + 1 + 1 + 1 := ⟨n - 4, by omega⟩
  simp only [List.take_succ_cons]
  rfl

theorem length_cons_four_sub (a b c d : Byte) (P : List Byte) :
    (((a :: b :: c :: d :: P).length : Nat) : Int) - 4 = (P.length : Int) := by
  simp only [List.length_cons]
  omega

theorem length_sub_self (P : List Byte) (n : Nat) (h : P.length = n) :
    (P.length : Int) - (n : Int) = (([] : List Byte).length : Int) := by
  rw [h]
  simp

/-- The buffer after a message of `MaxPayloadLen` zero bytes was sent from sequence 255. -/
theorem WritePacket_zeros :
    (WritePacket (writerOf [] 255) (0 :: 0 :: 0 :: 0 :: List.replicate MaxPayloadLen 0)).result
        = .ok none
      ∧ (WritePacket (writerOf [] 255)
          (0 :: 0 :: 0 :: 0 :: List.replicate MaxPayloadLen 0)).buffer
        = 0xff :: 0xff :: 0xff :: 255 :: List.replicate MaxPayloadLen 0 := by
  have hlenP : (List.replicate MaxPayloadLen (0 : Byte)).length = MaxPayloadLen :=
    List.length_replicate _ _
  have hdrop : ((0xff : Byte) :: 0xff :: 0xff :: (writerOf [] 255).Sequence
        :: List.replicate MaxPayloadLen 0).drop MaxPayloadLen
      = 0 :: 0 :: 0 :: 0 :: [] := by
    rw [drop_cons_four _ _ _ _ _ _ four_le_MaxPayloadLen, List.drop_replicate]
    have e : MaxPayloadLen - (MaxPayloadLen - 4) = 4 := by decide
    rw [e]
    rfl
  have htake : ((0xff : Byte) :: 0xff :: 0xff :: (writerOf [] 255).Sequence
        :: List.replicate MaxPayloadLen 0).take MaxPayloadLen
      = 0xff :: 0xff :: 0xff :: 255 :: List.replicate (MaxPayloadLen - 4) 0 := by
    rw [take_cons_four _ _ _ _ _ _ four_le_MaxPayloadLen, List.take_replicate]
    have e : min (MaxPayloadLen - 4) MaxPayloadLen = MaxPayloadLen - 4 := by decide
    rw [e]
    rfl
  have hsplit : List.replicate (MaxPayloadLen - 4) (0 : Byte) ++ [0, 0, 0, 0]
      = List.replicate MaxPayloadLen 0 := by
    have e : MaxPayloadLen = (MaxPayloadLen - 4) + 4 := by decide
    conv_rhs => rw [e, List.replicate_add]
    rfl
  unfold WritePacket
  rw [length_cons_four_sub, loop_chunk_accepts (writerOf [] 255)
      { sent := [], script := [], closes := 0, closeErr := none } []
      0 0 0 0 (List.replicate MaxPayloadLen 0) rfl (by rw [hlenP]) rfl,
    hdrop, htake, length_sub_self _ _ hlenP]
  rw [loop_final_accepts _ _ _ 0 0 0 0 [] rfl MaxPayloadLen_pos]
  · refine ⟨rfl, ?_⟩
    show [] ++ (0xff :: 0xff :: 0xff :: 255 :: List.replicate (MaxPayloadLen - 4) 0)
        ++ [0, 0, 0, 0] = _
    rw [List.nil_append, List.cons_append, List.cons_append, List.cons_append,
      List.cons_append, hsplit]
  · rfl

/-- C17, as stated, fails in its last part: for a message of `MaxPayloadLen` zero bytes sent
from sequence 255, with `L ≥ MaxPayloadLen`, the header written over the last 4 payload bytes
of the full chunk is `[0, 0, 0, 0]`, so after the successful call `data[4:]` still equals the
message that was sent. -/
theorem C17_buffer_changes_counterexample :
    (WritePacket (writerOf [] 255) (0 :: 0 :: 0 :: 0 :: List.replicate MaxPayloadLen 0)).result
        = .ok none
      ∧ MaxPayloadLen ≤ ((0 :: 0 :: 0 :: 0 :: List.replicate MaxPayloadLen (0 : Byte)).drop 4).length
      ∧ (WritePacket (writerOf [] 255)
          (0 :: 0 :: 0 :: 0 :: List.replicate MaxPayloadLen 0)).buffer.drop 4
        = (0 :: 0 :: 0 :: 0 :: List.replicate MaxPayloadLen (0 : Byte)).drop 4 := by
  refine ⟨WritePacket_zeros.1, ?_, ?_⟩
  · show MaxPayloadLen ≤ (List.replicate MaxPayloadLen (0 : Byte)).length
    rw [List.length_replicate]
  · rw [WritePacket_zeros.2]
    rfl

/-- C17, amended: after a WritePacket that returned nil on a buffer of at least 4 bytes with
payload length `L`, the buffer has its length and differs from before at most at the offsets
`i * MaxPayloadLen + j` with `0 ≤ i ≤ L / MaxPayloadLen` and `0 ≤ j ≤ 3`; the four bytes at
`i * MaxPayloadLen` are the header of frame `i`; when `L < MaxPayloadLen` `data[4:]` is
unchanged; when `L ≥ MaxPayloadLen` the last 4 payload bytes of every full chunk hold the next
frame's header, so `data[4:]` differs from the message that was sent as soon as one of these
groups of 4 bytes differed from the header written over it. -/
theorem C17_buffer_changes (c : Conn) (nc : NetConn) (data : List Byte)
    (h4 : 4 ≤ data.length) (hc : c.netConn = some nc)
    (hok : (WritePacket c data).result = .ok none) :
    (WritePacket c data).buffer.length = data.length
      ∧ (∀ p, (WritePacket c data).buffer[p]? ≠ data[p]? →
          ∃ i j, i ≤ (data.length - 4) / MaxPayloadLen ∧ j ≤ 3 ∧ p = i * MaxPayloadLen + j)
      ∧ (∀ i, i ≤ (data.length - 4) / MaxPayloadLen →
          ((WritePacket c data).buffer.drop (i * MaxPayloadLen)).take 4
            = ((wireFrames (data.drop 4) c.Sequence).getD i []).take 4)
      ∧ (data.length - 4 < MaxPayloadLen → (WritePacket c data).buffer.drop 4 = data.drop 4)
      ∧ (∀ i, 1 ≤ i → i ≤ (data.length - 4) / MaxPayloadLen →
          (data.drop (i * MaxPayloadLen)).take 4
            ≠ ((wireFrames (data.drop 4) c.Sequence).getD i []).take 4 →
          (WritePacket c data).buffer.drop 4 ≠ data.drop 4) := by
  obtain ⟨hl, hframe, hhead, hsmall⟩ := WritePacket_buffer c nc data h4 hc hok
  refine ⟨hl, hframe, hhead, hsmall, ?_⟩
  intro i hi1 hik hne heq
  apply hne
  rw [← hhead i hik]
  have hge : 4 ≤ i * MaxPayloadLen :=
    Nat.le_trans four_le_MaxPayloadLen (Nat.le_mul_of_pos_left _ (by omega))
  have hidx : i * MaxPayloadLen = 4 + (i * MaxPayloadLen - 4) := by omega
  rw [hidx, ← List.drop_drop, ← List.drop_drop, heq]

/-- A payload of three bytes: only the four reserved bytes change. -/
theorem C17_buffer_changes_witness :
    (WritePacket (writerOf [] 5) [9, 9, 9, 9, 1, 2, 3]).buffer.drop 4 = [1, 2, 3] :=
  (C17_buffer_changes (writerOf [] 5)
    { sent := [], script := [], closes := 0, closeErr := none } [9, 9, 9, 9, 1, 2, 3]
    (by decide) rfl
    ((WritePacket_spec (writerOf [] 5)
      { sent := [], script := [], closes := 0, closeErr := none } [9, 9, 9, 9, 1, 2, 3]
      (by decide) rfl).1 rfl).1).2.2.2.1 (by decide)

/-! ## What failed, and how the error is classified -/

theorem CopyN_fails (dst : Sink) (src : Reader) (n : Nat)
    (h : src.pending.length < n ∨ roomFor dst.room n = false) :
    ∃ nw e w1 br2, CopyN dst src n = (nw, some e, w1, br2) := by
  rcases Nat.lt_or_ge src.pending.length n with hlt | hge
  · obtain ⟨nw, e, br2, h1, _⟩ := CopyN_short dst src n hlt
    exact ⟨nw, e, _, br2, h1⟩
  · rcases h with h | h
    · omega
    · have hlen : (List.take n src.pending).length = n := by
        rw [List.length_take]
        omega
      unfold CopyN
      unfold Sink.Write
      cases hr : dst.room with
      | none => rw [hr] at h; simp [roomFor] at h
      | some k =>
        rw [hr] at h
        have hk : ¬ n ≤ k := by simpa [roomFor] using h
        have hne : ¬ k = n := by omega
        simp only [hlen, hk, if_false, hne]
        exact ⟨_, _, _, _, rfl⟩

theorem CopyN_takes (dst : Sink) (src : Reader) (n : Nat) (hge : n ≤ src.pending.length)
    (h : roomFor dst.room n = true) :
    ∃ w1, CopyN dst src n = (n, none, w1, { src with pending := src.pending.drop n })
      ∧ w1.room = dst.room.map (fun k => k - n) := by
  have hlen : (List.take n src.pending).length = n := by
    rw [List.length_take]
    omega
  unfold CopyN
  unfold Sink.Write
  cases hr : dst.room with
  | none =>
    simp only [hlen, if_true]
    exact ⟨_, rfl, by simp [hr]⟩
  | some k =>
    rw [hr] at h
    have hk : n ≤ k := by simpa [roomFor] using h
    simp only [hlen, hk, if_true]
    exact ⟨_, rfl, by simp⟩

theorem agrees_Trace (k : ReadStop) (e : Option Error) (c2 : Conn) (w2 : Sink)
    (r : Option Error × Conn × Sink) (hr : r = (e, c2, w2)) (h : agrees k e = true) :
    agrees k (match r with
      | (some err, c2, w2) => (Trace (some err), c2, w2)
      | (none, c2, w2) => (none, c2, w2)).1 = true := by
  subst hr
  cases e with
  | none => exact h
  | some err =>
    have hi : IsConnError (Trace (some err)) = IsConnError (some err) :=
      IsConnError_Trace err
    simp only
    cases k <;> simp only [agrees, hi] at h ⊢ <;> exact h

theorem ReadPacketTo_agrees (pending : List Byte) (s : Byte) (room : Option Nat) :
    ∀ (c : Conn) (w : Sink), c.br.pending = pending → c.Sequence = s → w.room = room →
      agrees (readStop pending s room) (ReadPacketTo c w).1 = true := by
  induction pending, s, room using readStop.induct with
  | case1 s room b0 b1 b2 q rest n hn =>
    intro c w hp _ _
    have hz : headerLength [b0, b1, b2, q] = 0 := by
      rw [headerLength_eq]
      omega
    rw [ReadPacketTo_zero c w b0 b1 b2 q rest hp hz, readStop]
    simp only [hn, if_true]
    rfl
  | case2 s room b0 b1 b2 q rest n hn hq =>
    intro c w hp hs _
    have hlen : 1 ≤ headerLength [b0, b1, b2, q] := by
      rw [headerLength_eq]
      omega
    subst hs
    rw [ReadPacketTo_mismatch c w b0 b1 b2 q rest hp hlen hq, readStop]
    simp only [hn, hq, if_false, if_true, ne_eq, not_false_eq_true]
    rfl
  | case3 s room b0 b1 b2 q rest n hn hq hbody =>
    intro c w hp hs hroom
    have hqs : q = s := not_not.mp hq
    subst hs
    subst hqs
    subst hroom
    have hlen : 1 ≤ headerLength [b0, b1, b2] := by
      rw [headerLength_three_eq]
      omega
    have hn3 : headerLength [b0, b1, b2] = n := headerLength_three_eq b0 b1 b2
    rw [ReadPacketTo_accepted c w b0 b1 b2 rest hp hlen, readStop]
    simp only [hn, hbody, if_false, if_true, ne_eq, not_true_eq_false]
    obtain ⟨nw, e, w1, br2, hcp⟩ :=
      CopyN_fails w { c.br with pending := rest } (headerLength [b0, b1, b2])
        (by rw [hn3]; exact hbody)
    rw [hcp]
    rfl
  | case4 s room b0 b1 b2 q rest n hn hq hbody hlt =>
    intro c w hp hs hroom
    have hqs : q = s := not_not.mp hq
    subst hs
    subst hqs
    subst hroom
    have hlen : 1 ≤ headerLength [b0, b1, b2] := by
      rw [headerLength_three_eq]
      omega
    have hn3 : headerLength [b0, b1, b2] = n := headerLength_three_eq b0 b1 b2
    have hge : n ≤ rest.length := by
      rcases Nat.lt_or_ge rest.length n with h | h
      · exact absurd (Or.inl h) hbody
      · exact h
    have hroom : roomFor w.room n = true := by
      cases h : roomFor w.room n with
      | true => rfl
      | false => exact absurd (Or.inr h) hbody
    rw [ReadPacketTo_accepted c w b0 b1 b2 rest hp hlen, readStop]
    simp only [hn, hbody, hlt, if_false, if_true, ne_eq, not_true_eq_false]
    obtain ⟨w1, hcp, _⟩ := CopyN_takes w { c.br with pending := rest } n hge hroom
    rw [hn3, hcp]
    simp only [hlt, if_true, ne_eq, not_true_eq_false, if_false]
    rfl
  | case5 s room b0 b1 b2 q rest n hn hq hbody hlt ih =>
    intro c w hp hs hroom
    have hqs : q = s := not_not.mp hq
    subst hs
    subst hqs
    subst hroom
    have hlen : 1 ≤ headerLength [b0, b1, b2] := by
      rw [headerLength_three_eq]
      omega
    have hn3 : headerLength [b0, b1, b2] = n := headerLength_three_eq b0 b1 b2
    have hge : n ≤ rest.length := by
      rcases Nat.lt_or_ge rest.length n with h | h
      · exact absurd (Or.inl h) hbody
      · exact h
    have hroom : roomFor w.room n = true := by
      cases h : roomFor w.room n with
      | true => rfl
      | false => exact absurd (Or.inr h) hbody
    rw [ReadPacketTo_accepted c w b0 b1 b2 rest hp hlen, readStop]
    simp only [hn, hbody, hlt, if_false, if_true, ne_eq, not_true_eq_false]
    obtain ⟨w1, hcp, hw1⟩ := CopyN_takes w { c.br with pending := rest } n hge hroom
    rw [hn3, hcp]
    simp only [hlt, if_true, ne_eq, not_true_eq_false, if_false]
    have h := ih { c with br := { c.br with pending := List.drop n rest },
                          Sequence := incr c.Sequence } w1 rfl rfl hw1
    exact agrees_Trace _ _ _ _ _ rfl h
  | case6 pending s room hnot =>
    intro c w hp _ _
    have hshort : c.br.pending.length < 4 := by
      rw [hp]
      match pending, hnot with
      | [], _ => simp
      | [_], _ => simp
      | [_, _], _ => simp
      | [_, _, _], _ => simp
      | b0 :: b1 :: b2 :: q :: rest, hnot => exact absurd rfl (hnot b0 b1 b2 q rest)
    rw [ReadPacketTo_short c w hshort, readStop]
    · rfl
    · exact hnot

theorem firstRefused_nil (fs : List (List Byte)) : firstRefused fs [] = none := by
  cases fs <;> rfl

theorem firstRefused_accepts (nc : NetConn) (f : List Byte) (fs : List (List Byte))
    (h : nc.accepts f = true) :
    firstRefused (f :: fs) nc.script
      = (firstRefused fs nc.script.tail).map (fun j => j + 1) := by
  unfold NetConn.accepts at h
  cases hs : nc.script with
  | nil => simp [firstRefused, firstRefused_nil]
  | cons o os =>
    rw [hs] at h
    have h1 : o.err = none ∧ o.n = f.length := by
      simpa [Option.isNone_iff_eq_none] using h
    simp only [firstRefused, h1, and_self, if_true, List.tail_cons]

theorem firstRefused_rejects (f : List Byte) (fs : List (List Byte)) (o : WriteOutcome)
    (os : List WriteOutcome) (h : ¬ (o.err = none ∧ o.n = f.length)) :
    firstRefused (f :: fs) (o :: os) = some 0 := by
  simp only [firstRefused, h, if_false]

theorem loop_refused (k : Nat) :
    ∀ (c : Conn) (nc : NetConn) (done : List Byte) (h0 h1 h2 h3 : Byte) (P : List Byte),
      c.netConn = some nc → P.length / MaxPayloadLen = k →
      (firstRefused (wireFrames P c.Sequence) nc.script = none →
        WroteAll (WritePacket.loop c done (h0 :: h1 :: h2 :: h3 :: P) (P.length : Int)) c nc
          (wireFrames P c.Sequence))
      ∧ (∀ j, firstRefused (wireFrames P c.Sequence) nc.script = some j →
        ∃ o, FailedAt (WritePacket.loop c done (h0 :: h1 :: h2 :: h3 :: P) (P.length : Int))
            c nc (wireFrames P c.Sequence) j o) := by
  induction k with
  | zero =>
    intro c nc done h0 h1 h2 h3 P hc hk
    have hlt : P.length < MaxPayloadLen := (Nat.div_eq_zero_iff MaxPayloadLen_pos).1 hk
    rw [wireFrames_lt P c.Sequence hlt]
    cases hacc : nc.accepts (finalFrame P c.Sequence 0) with
    | true =>
      have hA : WroteAll (WritePacket.loop c done (h0 :: h1 :: h2 :: h3 :: P) (P.length : Int))
          c nc [finalFrame P c.Sequence 0] := by
        rw [loop_final_accepts c nc done h0 h1 h2 h3 P hc hlt hacc]
        refine ⟨rfl, ?_⟩
        simp only [afterWrites, List.length_singleton, List.drop_one, incr_eq_seqAdd]
      refine ⟨fun _ => hA, fun j hj => ?_⟩
      rw [firstRefused_accepts nc _ _ hacc] at hj
      simp [firstRefused] at hj
    | false =>
      obtain ⟨o, rest, hs, hrej, -⟩ := Write_rejects nc _ hacc
      have hR := loop_final_rejects c nc done h0 h1 h2 h3 P o rest hc hlt hs hrej
      rw [hs, firstRefused_rejects _ _ o rest hrej]
      refine ⟨fun h => absurd h (by simp), fun j hj => ⟨o, ?_⟩⟩
      have hj0 : j = 0 := by simpa using hj.symm
      subst hj0
      refine ⟨by simp, by simp [hs], by simpa using hrej, hR.1, ?_⟩
      rw [hR.2]
      simp [afterWrites, hs, seqAdd_zero]
  | succ k ih =>
    intro c nc done h0 h1 h2 h3 P hc hk
    have hge : MaxPayloadLen ≤ P.length := by
      by_contra hlt
      rw [Nat.div_eq_of_lt (by omega)] at hk
      omega
    rw [wireFrames_ge P c.Sequence hge]
    cases hacc : nc.accepts (fullFrame P c.Sequence 0) with
    | true =>
      rw [loop_chunk_accepts c nc done h0 h1 h2 h3 P hc hge hacc,
        firstRefused_accepts nc _ _ hacc]
      have h4 : 4 ≤ ((0xff :: 0xff :: 0xff :: c.Sequence :: P).drop MaxPayloadLen).length := by
        simp only [List.length_drop, List.length_cons]
        omega
      obtain ⟨a, b, c', d, hdata⟩ := exists_header _ h4
      rw [drop_header] at hdata
      have hlen : (P.length : Int) - (MaxPayloadLen : Int)
          = ((P.drop MaxPayloadLen).length : Int) := by
        rw [List.length_drop]
        omega
      have hk' : (P.drop MaxPayloadLen).length / MaxPayloadLen = k := by
        rw [Nat.div_eq_sub_div MaxPayloadLen_pos hge] at hk
        rw [List.length_drop]
        omega
      rw [hdata, hlen]
      have IH := ih
        { c with
          netConn := some { nc with sent := nc.sent ++ [fullFrame P c.Sequence 0],
                                    script := nc.script.tail },
          Sequence := incr c.Sequence }
        { nc with sent := nc.sent ++ [fullFrame P c.Sequence 0], script := nc.script.tail }
        (done ++ (0xff :: 0xff :: 0xff :: c.Sequence :: P).take MaxPayloadLen)
        a b c' d (P.drop MaxPayloadLen) rfl hk'
      refine ⟨fun hnone => WroteAll_cons _ c nc _ _ (IH.1 ?_), fun j hj => ?_⟩
      · exact Option.map_eq_none.mp hnone
      · obtain ⟨j', hj', hjj⟩ := Option.map_eq_some.mp hj
        obtain ⟨o, hF⟩ := IH.2 j' hj'
        subst hjj
        exact ⟨o, FailedAt_cons _ c nc _ _ j' o hF⟩
    | false =>
      obtain ⟨o, rest, hs, hrej, -⟩ := Write_rejects nc _ hacc
      have hR := loop_chunk_rejects c nc done h0 h1 h2 h3 P o rest hc hge hs hrej
      rw [hs, firstRefused_rejects _ _ o rest hrej]
      refine ⟨fun h => absurd h (by simp), fun j hj => ⟨o, ?_⟩⟩
      have hj0 : j = 0 := by simpa using hj.symm
      subst hj0
      refine ⟨by simp, by simp [hs], by simpa using hrej, hR.1, ?_⟩
      rw [hR.2]
      simp [afterWrites, hs, seqAdd_zero]

theorem WritePacket_refused (c : Conn) (nc : NetConn) (data : List Byte)
    (h4 : 4 ≤ data.length) (hc : c.netConn = some nc) :
    (firstRefused (wireFrames (data.drop 4) c.Sequence) nc.script = none →
        WroteAll (WritePacket c data) c nc (wireFrames (data.drop 4) c.Sequence))
      ∧ (∀ j, firstRefused (wireFrames (data.drop 4) c.Sequence) nc.script = some j →
        ∃ o, FailedAt (WritePacket c data) c nc (wireFrames (data.drop 4) c.Sequence) j o) := by
  obtain ⟨h0, h1, h2, h3, hd⟩ := exists_header data h4
  have hlen : (data.length : Int) - 4 = ((data.drop 4).length : Int) := by
    rw [List.length_drop]
    omega
  have h := loop_refused ((data.drop 4).length / MaxPayloadLen) c nc [] h0 h1 h2 h3
    (data.drop 4) hc rfl
  rw [← hd, ← hlen] at h
  exact h

theorem ReadPacket_agrees (c : Conn) :
    agrees (readStop c.br.pending c.Sequence none) (ReadPacket c).2.1 = true := by
  have h := ReadPacketTo_agrees c.br.pending c.Sequence none c { data := [], room := none }
    rfl rfl rfl
  rcases hr : ReadPacketTo c { data := [], room := none } with ⟨_ | err, c1, w1⟩
  · rw [hr] at h
    rw [ReadPacket_of_ok c c1 w1 hr]
    exact h
  · rw [hr] at h
    rw [ReadPacket_of_error c err c1 w1 hr]
    have hi : IsConnError (Trace (some err)) = IsConnError (some err) := IsConnError_Trace err
    cases hk : readStop c.br.pending c.Sequence none <;> rw [hk] at h <;>
      simp only [agrees, hi] at h ⊢ <;> exact h

theorem agrees_iff (k : ReadStop) (e : Option Error) (h : agrees k e = true) :
    (e = none ↔ k = .complete)
      ∧ (IsConnError e = true ↔ (k = .headerRead ∨ k = .bodyRead))
      ∧ ((e.isSome = true ∧ IsConnError e = false)
          ↔ (k = .invalidLength ∨ k = .sequenceMismatch)) := by
  cases e with
  | none => cases k <;> simp [agrees, IsConnError] at h ⊢
  | some err => cases k <;> simp [agrees] at h ⊢ <;> simp [h]

theorem readStop_more (payload rest : List Byte) (s : Byte)
    (hlen : payload.length = MaxPayloadLen) :
    readStop (frame 0xFF 0xFF 0xFF s payload ++ rest) s none = readStop rest (seqAdd s 1) none := by
  have hf : frame 0xFF 0xFF 0xFF s payload ++ rest
      = 0xFF :: 0xFF :: 0xFF :: s :: (payload ++ rest) := rfl
  have hn : (0xFF : Byte).val + 256 * (0xFF : Byte).val + 65536 * (0xFF : Byte).val
      = MaxPayloadLen := by decide
  have h1 : ¬ MaxPayloadLen < 1 := by decide
  have h2 : ¬ (payload ++ rest).length < MaxPayloadLen := by
    rw [List.length_append, hlen]
    omega
  have h3 : List.drop MaxPayloadLen (payload ++ rest) = rest := by
    rw [← hlen]
    exact List.drop_left _ _
  rw [hf, readStop]
  simp only [hn, h1, h2, h3, roomFor, if_false, ne_eq, not_true_eq_false, or_self,
    lt_self_iff_false, Option.map_none', Bool.true_eq_false]

theorem WritePacket_refused_iff (c : Conn) (nc : NetConn) (data : List Byte)
    (h4 : 4 ≤ data.length) (hc : c.netConn = some nc) :
    ((WritePacket c data).result = .ok none
        ↔ firstRefused (wireFrames (data.drop 4) c.Sequence) nc.script = none)
      ∧ (isConnFailure (WritePacket c data).result = true
        ↔ ∃ j, firstRefused (wireFrames (data.drop 4) c.Sequence) nc.script = some j)
      ∧ (∀ j, firstRefused (wireFrames (data.drop 4) c.Sequence) nc.script = some j →
        ∃ o, FailedAt (WritePacket c data) c nc (wireFrames (data.drop 4) c.Sequence) j o) := by
  have h := WritePacket_refused c nc data h4 hc
  refine ⟨?_, ?_, h.2⟩
  · cases hfr : firstRefused (wireFrames (data.drop 4) c.Sequence) nc.script with
    | none => exact ⟨fun _ => rfl, fun _ => (h.1 hfr).1⟩
    | some j =>
      obtain ⟨o, hF⟩ := h.2 j hfr
      refine ⟨fun hr => ?_, fun hn => absurd hn (by simp)⟩
      have hf := hF.2.2.2.1
      rw [hr] at hf
      exact absurd hf (by simp [isConnFailure])
  · cases hfr : firstRefused (wireFrames (data.drop 4) c.Sequence) nc.script with
    | none =>
      refine ⟨fun hf => ?_, fun ⟨j, hj⟩ => absurd hj (by simp)⟩
      rw [(h.1 hfr).1] at hf
      exact absurd hf (by simp [isConnFailure])
    | some j =>
      obtain ⟨o, hF⟩ := h.2 j hfr
      exact ⟨fun _ => ⟨j, rfl⟩, fun _ => hF.2.2.2.1⟩

/-- C11: IsConnError is false for nil, and for the errors that ReadPacketTo, ReadPacket and
WritePacket return it is true exactly when a read or a write failed or was short.  Told from
the stream, the counter and the sink alone (`readStop`): the call returns nil exactly when
every frame of the packet arrives and is accepted; the returned error is classified true
exactly when the bytes run out or the sink refuses in a header read or a body copy, of the
first frame or of a continuation frame; it is non-nil and classified false exactly when a
header announces length 0 or carries the wrong sequence byte.  The same holds of ReadPacket,
which traces the error once more.  For WritePacket on a buffer of at least 4 bytes, told
from the outcomes of the coming writes alone (`firstRefused`): it returns nil exactly when
every frame, chunk or final, gets the outcome `(len, nil)`, and otherwise it fails at the
first frame that does not, a short count without error included, with an error classified
true; every error it returns is classified true.  Every returned error is a value built at
one place of the code, traced `n ≥ 0` times on the way out, a ConnError for a failed read or
write and an `errors.Errorf` value for the two header checks, and the classification of
either kind is the same after any number of traces. -/
theorem C11_error_classification (c : Conn) (w : Sink) (data : List Byte) :
    IsConnError none = false
      ∧ (∀ e, (ReadPacketTo c w).1 = some e →
          ∃ n b, e = traceN n b ∧ (TransportError b ∨ ProtocolError b)
            ∧ (IsConnError (some e) = true ↔ TransportError b))
      ∧ (∀ e, (ReadPacket c).2.1 = some e →
          (∃ e1, e = traceN 1 e1)
            ∧ ∃ n b, e = traceN n b ∧ (TransportError b ∨ ProtocolError b)
              ∧ (IsConnError (some e) = true ↔ TransportError b))
      ∧ (∀ e, (WritePacket c data).result = .ok (some e) →
          ∃ n b, e = traceN n b ∧ TransportError b ∧ IsConnError (some e) = true)
      ∧ (∀ b n, TransportError b → IsConnError (some (traceN n b)) = true)
      ∧ (∀ b n, ProtocolError b → IsConnError (some (traceN n b)) = false)
      ∧ ((ReadPacketTo c w).1 = none
          ↔ readStop c.br.pending c.Sequence w.room = .complete)
      ∧ (IsConnError (ReadPacketTo c w).1 = true
          ↔ (readStop c.br.pending c.Sequence w.room = .headerRead
            ∨ readStop c.br.pending c.Sequence w.room = .bodyRead))
      ∧ (((ReadPacketTo c w).1.isSome = true ∧ IsConnError (ReadPacketTo c w).1 = false)
          ↔ (readStop c.br.pending c.Sequence w.room = .invalidLength
            ∨ readStop c.br.pending c.Sequence w.room = .sequenceMismatch))
      ∧ ((ReadPacket c).2.1 = none
          ↔ readStop c.br.pending c.Sequence none = .complete)
      ∧ (IsConnError (ReadPacket c).2.1 = true
          ↔ (readStop c.br.pending c.Sequence none = .headerRead
            ∨ readStop c.br.pending c.Sequence none = .bodyRead))
      ∧ (((ReadPacket c).2.1.isSome = true ∧ IsConnError (ReadPacket c).2.1 = false)
          ↔ (readStop c.br.pending c.Sequence none = .invalidLength
            ∨ readStop c.br.pending c.Sequence none = .sequenceMismatch))
      ∧ (∀ nc, 4 ≤ data.length → c.netConn = some nc →
          ((WritePacket c data).result = .ok none
            ↔ firstRefused (wireFrames (data.drop 4) c.Sequence) nc.script = none)
          ∧ (isConnFailure (WritePacket c data).result = true
            ↔ ∃ j, firstRefused (wireFrames (data.drop 4) c.Sequence) nc.script = some j)
          ∧ (∀ j, firstRefused (wireFrames (data.drop 4) c.Sequence) nc.script = some j →
            ∃ o, FailedAt (WritePacket c data) c nc
              (wireFrames (data.drop 4) c.Sequence) j o)) :=
  ⟨rfl,
    fun e he => classified_iff e (ReadPacketTo_classified c w e he),
    fun e he => ⟨ReadPacket_traced c e he, classified_iff e (ReadPacket_classified c e he)⟩,
    loop_classified c [] data _,
    fun b n h => IsConnError_transport b h n,
    fun b n h => IsConnError_protocol b h n,
    (agrees_iff _ _ (ReadPacketTo_agrees _ _ _ c w rfl rfl rfl)).1,
    (agrees_iff _ _ (ReadPacketTo_agrees _ _ _ c w rfl rfl rfl)).2.1,
    (agrees_iff _ _ (ReadPacketTo_agrees _ _ _ c w rfl rfl rfl)).2.2,
    (agrees_iff _ _ (ReadPacket_agrees c)).1,
    (agrees_iff _ _ (ReadPacket_agrees c)).2.1,
    (agrees_iff _ _ (ReadPacket_agrees c)).2.2,
    fun nc h4 hc => WritePacket_refused_iff c nc data h4 hc⟩

/-- Three runs: a header with sequence byte 6 where 5 is expected gives an error classified
false; a header that is cut short behind a frame of full length gives an error classified
true, also through ReadPacket; a final write that takes 3 of 5 bytes and reports no error
gives an error classified true. -/
theorem C11_error_classification_witness :
    ((ReadPacketTo (readerOf [1, 0, 0, 6, 42] 5) (bufferOf [])).1.isSome = true
        ∧ IsConnError (ReadPacketTo (readerOf [1, 0, 0, 6, 42] 5) (bufferOf [])).1 = false)
      ∧ IsConnError (ReadPacket
          (readerOf (frame 0xFF 0xFF 0xFF 0 (List.replicate MaxPayloadLen 0) ++ [9, 0]) 0)).2.1
          = true
      ∧ isConnFailure (WritePacket (writerOf [⟨3, none⟩] 0) [0, 0, 0, 0, 7]).result = true :=
  ⟨(C11_error_classification (readerOf [1, 0, 0, 6, 42] 5) (bufferOf []) []).2.2.2.2.2.2.2.2.1.mpr
      (Or.inr (by simp [readStop, readerOf, bufferOf])),
    (C11_error_classification
      (readerOf (frame 0xFF 0xFF 0xFF 0 (List.replicate MaxPayloadLen 0) ++ [9, 0]) 0)
      (bufferOf []) []).2.2.2.2.2.2.2.2.2.2.1.mpr
      (Or.inl (by
        show readStop (frame 0xFF 0xFF 0xFF 0 (List.replicate MaxPayloadLen 0) ++ [9, 0]) 0 none
          = .headerRead
        rw [readStop_more _ _ _ (List.length_replicate _ _)]
        simp [readStop])),
    ((C11_error_classification (writerOf [⟨3, none⟩] 0) (bufferOf []) [0, 0, 0, 0, 7]).2.2.2.2.2.2.2.2.2.2.2.2
      { sent := [], script := [⟨3, none⟩], closes := 0, closeErr := none }
      (by decide) rfl).2.1.mpr ⟨0, by
        show firstRefused (wireFrames [7] 0) [⟨3, none⟩] = some 0
        rw [wireFrames_lt _ _ (by decide)]
        rfl⟩⟩

end packet
